import Mathlib

/-!
# dircandy: the workflow state machine of `main.go`

A shallow embedding of `src/main.go` (a Bubble Tea terminal program that picks
an action, browses directories to select sources and a destination, and runs
`cp` / `mv` / `rm`).

Conventions of the embedding

* Go `string` is `String`; Go `int` is `Int`; Go `error` is `Option String`
  (`none` is `nil`, `some e` carries the error text).
* Everything outside the repository is a parameter: the operating system and
  the `path/filepath` functions are the fields of `Env`, the `bubbles/list`
  component is `Lib`.  An `Env` is passed to every step, so the file system may
  answer differently from one step to the next.
* Side effects are recorded: every function returns, next to the new model and
  the follow-up command, the list of external calls it made (`Effect`).
* A Go run-time panic (index out of range, nil pointer dereference) is the
  `error` branch of `Except Fault`.
-/

namespace Dircandy

/-! ## Data model -/

/-- The screens: `type state int` with its `iota` constants. -/
inductive state where
  | selectAction
  | selectFiles
  | selectDestination
  | confirmRemove
  | execute
  | showResult
  deriving DecidableEq, Repr

/-- The item type of the action list: `type actionItem struct { name string }`. -/
structure actionItem where
  name : String
  deriving DecidableEq, Repr

/-- What the program observes of an `os.DirEntry`: `Name()` and `IsDir()`. -/
structure DirEntry where
  name : String
  isDir : Bool
  deriving DecidableEq, Repr

/-- A message given to `Update`. `key s` is a `tea.KeyMsg` whose `String()` is `s`;
`other` is any message that is not a `tea.KeyMsg`. -/
inductive Msg where
  | key (s : String)
  | other (tag : Nat)
  deriving DecidableEq, Repr

/-- The commands `Update` returns. `nil` is Go `nil`, `quit` is `tea.Quit`,
`quitAfter n` is `tea.Tick(time.Second*n, ...)` whose message is `tea.Quit()`,
and `external` is a command made by the list component. -/
inductive Cmd where
  | nil
  | quit
  | quitAfter (seconds : Nat)
  | external (tag : Nat)
  deriving DecidableEq, Repr

/-- The external calls that are recorded: `os.ReadDir(path)` and
`exec.Command(name, args...).CombinedOutput()`. -/
inductive Effect where
  | readDir (path : String)
  | exec (name : String) (args : List String)
  deriving DecidableEq, Repr

/-- The run-time panics the program can raise. -/
inductive Fault where
  | indexOutOfRange (index : Int) (length : Nat)
  | nilDereference
  deriving DecidableEq, Repr

/-- An allocated Go `map[string]bool`: a list of key/value pairs without a
repeated key. The order of `entries` is the order in which `range` visits the
map; Go leaves that order unspecified, and the theorems about `range` are
stated for every `GoMap`, hence for every order. -/
structure GoMap where
  entries : List (String × Bool)
  nodupKeys : (entries.map Prod.fst).Nodup

namespace GoMap

/-- The map made by `make(map[string]bool)`. -/
def empty : GoMap := ⟨[], List.nodup_nil⟩

/-- The read `s[k]`: the zero value `false` when the key is absent. -/
def get (s : GoMap) (k : String) : Bool :=
  (s.entries.lookup k).getD false

/-- The write `s[k] = v`. -/
def store (s : GoMap) (k : String) (v : Bool) : GoMap where
  entries := (k, v) :: s.entries.filter (fun e => e.1 ≠ k)
  nodupKeys := by
    refine List.nodup_cons.mpr ⟨?_, ?_⟩
    · simp [List.mem_map, List.mem_filter]
    · exact s.nodupKeys.sublist (List.Sublist.map _ (List.filter_sublist _))

end GoMap

/-- The operating system and `path/filepath`, as seen by the program. -/
structure Env where
  /-- `os.ReadDir(path)`: the entries, or the error. -/
  readDir : String → Except String (List DirEntry)
  /-- `filepath.Abs(path)`; the program drops its error result. -/
  abs : String → String
  /-- `filepath.Join(a, b)`. -/
  join : String → String → String
  /-- `filepath.Dir(path)`. -/
  dir : String → String
  /-- `exec.Command(name, args...).CombinedOutput()`: the output and the error. -/
  combinedOutput : String → List String → String × Option String

/-- The `bubbles/list` component holding values of type `L`. The three laws say
that the component only ever hands back one of the items it was created with. -/
structure Lib (L : Type) where
  /-- `list.New(items, ...)`, with the title set. -/
  listNew : List actionItem → L
  /-- `Model.Update(msg)`. -/
  listUpdate : L → Msg → L × Cmd
  /-- `Model.SelectedItem().(actionItem)`, `none` when the assertion fails. -/
  selectedItem : L → Option actionItem
  /-- `Model.Items()`. -/
  listItems : L → List actionItem
  listItems_new : ∀ items, listItems (listNew items) = items
  listItems_update : ∀ l msg, listItems (listUpdate l msg).1 = listItems l
  selectedItem_mem : ∀ l item, selectedItem l = some item → item ∈ listItems l

/-- The program state: `type model struct`. -/
structure model (L : Type) where
  state : state
  action : String
  currentPath : String
  files : List DirEntry
  cursor : Int
  selected : GoMap
  destinationPath : String
  result : String
  err : Option String
  actionList : L

/-- What a call returns: the new model, the command, and the external calls made. -/
structure Outcome (L : Type) where
  m : model L
  cmd : Cmd
  effects : List Effect

variable {L : Type}

/-! ## Operations -/

/-- The UTF-8 bytes of a string, which Go's `<` on strings compares. -/
def bytes (s : String) : List Nat :=
  (s.data.flatMap String.utf8EncodeChar).map UInt8.toNat

/-- The comparison given to `sort.Slice`: `files[i].Name() < files[j].Name()`. -/
def nameLess (a b : DirEntry) : Prop := bytes a.name < bytes b.name

instance : DecidableRel nameLess := fun a b =>
  inferInstanceAs (Decidable (bytes a.name < bytes b.name))

/-- The library call `sort.Slice(files, less)` with `less = nameLess`: an insertion sort
that places `a` before `b` unless `b` is less than `a`. -/
def sortSlice (files : List DirEntry) : List DirEntry :=
  files.insertionSort (fun a b => ¬ nameLess b a)

/-- The indexing `files[i]`, which panics outside `0 <= i < len(files)`. -/
def index (files : List DirEntry) (i : Int) : Except Fault DirEntry :=
  if i < 0 then .error (.indexOutOfRange i files.length)
  else
    match files.get? i.toNat with
    | some f => .ok f
    | none => .error (.indexOutOfRange i files.length)

/-- The three items of the action list. -/
def actionItems : List actionItem := [⟨"Copy"⟩, ⟨"Move"⟩, ⟨"Remove"⟩]

/-- `func initialModel() model`. -/
def initialModel (lib : Lib L) : model L where
  state := .selectAction
  action := ""
  currentPath := "."
  files := []
  cursor := 0
  selected := GoMap.empty
  destinationPath := ""
  result := ""
  err := none
  actionList := lib.listNew actionItems

/-- `func (m model) loadFiles(path string, nextState state)`. -/
def loadFiles (env : Env) (m : model L) (path : String) (nextState : state) : Outcome L :=
  match env.readDir path with
  | .error e =>
    ⟨{ m with err := some e, state := .showResult }, .quitAfter 2, [.readDir path]⟩
  | .ok files =>
    ⟨{ m with files := sortSlice files, currentPath := env.abs path, cursor := 0,
              state := nextState }, .nil, [.readDir path]⟩

/-- The loop `for p, selected := range m.selected { if selected { paths = append(paths, p) } }`. -/
def selectedPaths (s : GoMap) : List String :=
  s.entries.foldl (fun paths e => if e.2 then paths ++ [e.1] else paths) []

/-- The `switch m.action` of `runCommand`: the program and its arguments, `none`
when no case matches and `cmd` stays `nil`. -/
def command (action : String) (paths : List String) (destinationPath : String) :
    Option (String × List String) :=
  if action = "Copy" then some ("cp", (["-r"] ++ paths) ++ [destinationPath])
  else if action = "Move" then some ("mv", paths ++ [destinationPath])
  else if action = "Remove" then some ("rm", ["-rf"] ++ paths)
  else none

/-- `func (m model) runCommand()`. -/
def runCommand (env : Env) (m : model L) : Except Fault (Outcome L) :=
  let paths := selectedPaths m.selected
  if paths.length = 0 then
    .ok ⟨{ m with result := "No files selected.", state := .showResult }, .quitAfter 2, []⟩
  else
    match command m.action paths m.destinationPath with
    | none => .error .nilDereference
    | some (name, args) =>
      let out := env.combinedOutput name args
      .ok ⟨{ m with result := out.1, err := out.2, state := .showResult }, .quitAfter 2,
           [.exec name args]⟩

/-- The `case selectFiles, selectDestination:` branch of `Update`. -/
def updateBrowse (env : Env) (m : model L) (msg : Msg) : Except Fault (Outcome L) :=
  match msg with
  | .key k =>
    if k = "up" ∨ k = "k" then
      .ok ⟨if m.cursor > 0 then { m with cursor := m.cursor - 1 } else m, .nil, []⟩
    else if k = "down" ∨ k = "j" then
      .ok ⟨if m.cursor < (m.files.length : Int) - 1 then { m with cursor := m.cursor + 1 } else m,
           .nil, []⟩
    else if k = "right" ∨ k = "enter" then
      match index m.files m.cursor with
      | .error fault => .error fault
      | .ok f =>
        if f.isDir then .ok (loadFiles env m (env.join m.currentPath f.name) m.state)
        else .ok ⟨m, .nil, []⟩
    else if k = "left" ∨ k = "backspace" then
      if env.dir m.currentPath ≠ m.currentPath then
        .ok (loadFiles env m (env.dir m.currentPath) m.state)
      else .ok ⟨m, .nil, []⟩
    else if k = " " then
      if m.state = .selectFiles then
        match index m.files m.cursor with
        | .error fault => .error fault
        | .ok f =>
          let fullPath := env.join m.currentPath f.name
          .ok ⟨{ m with selected := m.selected.store fullPath (!m.selected.get fullPath) },
               .nil, []⟩
      else .ok ⟨m, .nil, []⟩
    else if k = "tab" then
      if m.state = .selectFiles then
        if m.action = "Remove" then .ok ⟨{ m with state := .confirmRemove }, .nil, []⟩
        else .ok (loadFiles env m "." .selectDestination)
      else if m.state = .selectDestination then
        runCommand env { m with destinationPath := m.currentPath, state := .execute }
      else .ok ⟨m, .nil, []⟩
    else if k = "q" ∨ k = "ctrl+c" then .ok ⟨m, .quit, []⟩
    else .ok ⟨m, .nil, []⟩
  | .other _ => .ok ⟨m, .nil, []⟩

/-- `func (m model) Update(msg tea.Msg) (tea.Model, tea.Cmd)`. -/
def Update (lib : Lib L) (env : Env) (m : model L) (msg : Msg) : Except Fault (Outcome L) :=
  match m.state with
  | .selectAction =>
    let r := lib.listUpdate m.actionList msg
    match msg with
    | .key k =>
      if k = "enter" then
        match lib.selectedItem r.1 with
        | some item =>
          .ok (loadFiles env { m with actionList := r.1, action := item.name } m.currentPath
                .selectFiles)
        | none => .ok ⟨{ m with actionList := r.1 }, r.2, []⟩
      else if k = "q" ∨ k = "ctrl+c" then .ok ⟨{ m with actionList := r.1 }, .quit, []⟩
      else .ok ⟨{ m with actionList := r.1 }, r.2, []⟩
    | .other _ => .ok ⟨{ m with actionList := r.1 }, r.2, []⟩
  | .selectFiles => updateBrowse env m msg
  | .selectDestination => updateBrowse env m msg
  | .confirmRemove =>
    match msg with
    | .key k =>
      if k = "enter" then runCommand env { m with state := .execute }
      else if k = "q" ∨ k = "ctrl+c" then .ok ⟨m, .quit, []⟩
      else .ok ⟨m, .nil, []⟩
    | .other _ => .ok ⟨m, .nil, []⟩
  | .execute => .ok ⟨m, .nil, []⟩
  | .showResult =>
    match msg with
    | .key k =>
      if k = "q" ∨ k = "ctrl+c" then .ok ⟨m, .quit, []⟩
      else .ok ⟨m, .nil, []⟩
    | .other _ => .ok ⟨m, .nil, []⟩

/-- The models the running program can hold: `initialModel()`, and whatever
`Update` returns on a reachable model, for any message and any answer of the
operating system. -/
inductive Reachable (lib : Lib L) : model L → Prop where
  | init : Reachable lib (initialModel lib)
  | step (env : Env) (msg : Msg) (m : model L) (o : Outcome L) :
      Reachable lib m → Update lib env m msg = .ok o → Reachable lib o.m

/-- The reachable models together with their history: the flag tells whether the
advance key `tab` has been given on the destination screen. -/
inductive History (lib : Lib L) : model L → Bool → Prop where
  | init : History lib (initialModel lib) false
  | step (env : Env) (msg : Msg) (m : model L) (o : Outcome L) (b : Bool) :
      History lib m b → Update lib env m msg = .ok o →
      History lib o.m (b || decide (m.state = .selectDestination ∧ msg = .key "tab"))

/-- The event loop: feeds the messages to `Update` one after the other, each with
the answers the operating system gives at that moment, and stops at a panic. -/
def runKeys (lib : Lib L) : model L → List (Env × Msg) → Except Fault (model L)
  | m, [] => .ok m
  | m, (env, msg) :: rest =>
    match Update lib env m msg with
    | .error fault => .error fault
    | .ok o => runKeys lib o.m rest

/-- The keys that move the cursor, open a directory, or go back to the parent. -/
def navKeys : List String :=
  ["up", "k", "down", "j", "right", "enter", "left", "backspace"]

/-! ## The view -/

/-- What `View` asks of the outside: the text of the list component, and for a
directory entry the size reported by `Info()`, `none` when `Info()` fails (the
program drops the error and keeps a nil `info`). -/
structure Display (L : Type) where
  /-- `list.Model.View()`. -/
  listView : L → String
  /-- `file.Info()` followed by `info.Size()`. -/
  info : DirEntry → Option Int

/-- The body of the loop of `renderFileList` for the entry `file` at index `i`: the
line added to the text. Calling `info.Size()` on a nil `info` panics. -/
def renderLine (d : Display L) (env : Env) (m : model L) (i : Nat) (file : DirEntry) :
    Except Fault String :=
  let cursor := if m.cursor = (i : Int) then "ðŸ‘‰" else "  "
  let fullPath := env.join m.currentPath file.name
  let selected := if m.state = .selectFiles ∧ m.selected.get fullPath = true then "âœ…" else "  "
  let tag := if file.isDir then " [DIR]" else ""
  if file.isDir then .ok (cursor ++ selected ++ " " ++ file.name ++ tag ++ "" ++ "\n")
  else
    match d.info file with
    | none => .error .nilDereference
    | some size =>
      .ok (cursor ++ selected ++ " " ++ file.name ++ tag ++ (" (" ++ toString size ++ " bytes)")
            ++ "\n")

/-- The loop `for i, file := range m.files` of `renderFileList`, from index `i` on,
with `s` the text built so far. -/
def renderLines (d : Display L) (env : Env) (m : model L) :
    Nat → List DirEntry → String → Except Fault String
  | _, [], s => .ok s
  | i, file :: rest, s =>
    match renderLine d env m i file with
    | .error fault => .error fault
    | .ok line => renderLines d env m (i + 1) rest (s ++ line)

/-- `func (m model) renderFileList(title string) string`. -/
def renderFileList (d : Display L) (env : Env) (m : model L) (title : String) :
    Except Fault String :=
  match renderLines d env m 0 m.files ("\nCurrent Path: " ++ m.currentPath ++ "\n" ++ title ++ "\n") with
  | .error fault => .error fault
  | .ok s => .ok (s ++ "\nControls: â†‘/â†“ to navigate, space to select files, â†’/enter to open, â†/backspace to go up, tab to proceed, q to quit")

/-- `func (m model) View() string`. -/
def View (d : Display L) (env : Env) (m : model L) : Except Fault String :=
  match m.state with
  | .selectAction => .ok (d.listView m.actionList)
  | .selectFiles => renderFileList d env m "Choose files (space to select, â†’/enter to open, â†/backspace to go up, tab to proceed)"
  | .selectDestination => renderFileList d env m "Choose destination (â†’/enter to open, â†/backspace to go up, tab to confirm)"
  | .confirmRemove => .ok "\nPress enter to confirm removal, or q to cancel."
  | .showResult =>
    let status := match m.err with
      | none => "Success!"
      | some e => "Error: " ++ e
    .ok ("\n== Result ==\n" ++ status ++ "\n\n" ++ m.result ++ "\n\nExiting in 2 seconds...")
  | .execute => .ok "Loading..."

/-- The cursor is an index into the listing, or the listing is empty and the cursor
is 0. -/
def validCursor (m : model L) : Prop :=
  (0 ≤ m.cursor ∧ m.cursor < m.files.length) ∨ (m.files = [] ∧ m.cursor = 0)

/-! ## A small world to evaluate the program in -/

/-- A file system with the directory `/home` (the working directory), holding
three files and the empty directory `sub`. -/
def demoEnv : Env where
  readDir := fun path =>
    if path = "." ∨ path = "/home" then
      .ok [⟨"b.txt", false⟩, ⟨"sub", true⟩, ⟨"a.txt", false⟩, ⟨"B.txt", false⟩]
    else if path = "/home/sub" then .ok []
    else .error "no such file or directory"
  abs := fun path => if path = "." then "/home" else path
  join := fun a b => a ++ "/" ++ b
  dir := fun path =>
    if path = "/home/sub" then "/home" else if path = "/home" then "/" else path
  combinedOutput := fun _ _ => ("", none)

/-- A list component that keeps its items and the index of the highlighted one. -/
def demoLib : Lib (List actionItem × Nat) where
  listNew := fun items => (items, 0)
  listUpdate := fun l msg =>
    if msg = .key "down" then ((l.1, l.2 + 1), .nil)
    else if msg = .key "up" then ((l.1, l.2 - 1), .nil)
    else (l, .nil)
  selectedItem := fun l => l.1.get? l.2
  listItems := fun l => l.1
  listItems_new := fun _ => rfl
  listItems_update := fun l msg => by
    by_cases h1 : msg = .key "down"
    · simp [h1]
    · by_cases h2 : msg = .key "up" <;> simp [h1, h2]
  selectedItem_mem := fun l item h => List.get?_mem h

/-- The model after choosing `action` and listing `/home`, with the cursor on
the file `a.txt` and the given selection. -/
def demoModel (action : String) (selected : GoMap) : model (List actionItem × Nat) where
  state := .selectFiles
  action := action
  currentPath := "/home"
  files := [⟨"B.txt", false⟩, ⟨"a.txt", false⟩, ⟨"b.txt", false⟩, ⟨"sub", true⟩]
  cursor := 1
  selected := selected
  destinationPath := ""
  result := ""
  err := none
  actionList := (actionItems, 0)

/-- The model on the destination screen in `/home`, after choosing `Copy` and
selecting `/home/B.txt`. -/
def demoDestination : model (List actionItem × Nat) :=
  { demoModel "Copy" (GoMap.empty.store "/home/B.txt" true) with
    state := .selectDestination, cursor := 0 }

/-- The model on the source screen in the empty directory `/home/sub`. -/
def demoEmpty : model (List actionItem × Nat) :=
  { demoModel "Copy" GoMap.empty with currentPath := "/home/sub", files := [], cursor := 0 }

/-- The model on the result screen after a successful run. -/
def demoResult : model (List actionItem × Nat) :=
  { demoModel "Copy" (GoMap.empty.store "/home/a.txt" true) with
    state := .showResult, destinationPath := "/home" }

/-- The demo world with an executor that fails. -/
def demoFailEnv : Env :=
  { demoEnv with combinedOutput := fun _ _ => ("cp: permission denied\n", some "exit status 1") }

/-- A display in which every file has 12 bytes. -/
def demoDisplay : Display (List actionItem × Nat) where
  listView := fun _ => "Choose Action"
  info := fun _ => some 12

/-! ## The invariant of the reachable models -/

/-- What holds of every reachable model: the confirmation screen is only shown
for `Remove` and the destination screen never for it; `destinationPath` is empty
unless the result screen was reached with it equal to `currentPath`; `execute` is
never a resting screen; the action list keeps its three items, and once the
action screen is left the action is one of them. -/
def Inv (lib : Lib L) (m : model L) : Prop :=
  (m.state = .confirmRemove → m.action = "Remove") ∧
  (m.state = .selectDestination → m.action ≠ "Remove") ∧
  (m.destinationPath = "" ∨ (m.state = .showResult ∧ m.destinationPath = m.currentPath)) ∧
  m.state ≠ .execute ∧
  lib.listItems m.actionList = actionItems ∧
  (m.state ≠ .selectAction → m.action = "Copy" ∨ m.action = "Move" ∨ m.action = "Remove")

/-! ## Lemmas on maps -/

namespace GoMap

theorem lookup_cons_eq (e : String × Bool) (l : List (String × Bool)) (k : String) :
    (e :: l).lookup k = if k = e.1 then some e.2 else l.lookup k := by
  obtain ⟨a, b⟩ := e
  by_cases h : k = a
  · subst h
    simp [List.lookup_cons]
  · have hne : (k == a) = false := by simpa using h
    simp [List.lookup_cons, hne, h]

theorem lookup_filter (p : String × Bool → Bool) (k : String)
    (hp : ∀ e : String × Bool, e.1 = k → p e = true) :
    ∀ l : List (String × Bool), (l.filter p).lookup k = l.lookup k := by
  intro l
  induction l with
  | nil => rfl
  | cons e l ih =>
    by_cases hk : k = e.1
    · rw [List.filter_cons_of_pos (hp e hk.symm), lookup_cons_eq, lookup_cons_eq, if_pos hk,
        if_pos hk]
    · by_cases hpe : p e = true
      · rw [List.filter_cons_of_pos hpe, lookup_cons_eq, lookup_cons_eq, if_neg hk, if_neg hk, ih]
      · rw [List.filter_cons_of_neg hpe, lookup_cons_eq, if_neg hk, ih]

theorem get_store (s : GoMap) (k k' : String) (v : Bool) :
    (s.store k v).get k' = if k' = k then v else s.get k' := by
  unfold get store
  by_cases h : k' = k
  · subst h
    simp [lookup_cons_eq]
  · have hp : ∀ e : String × Bool, e.1 = k' → decide (e.1 ≠ k) = true := by
      intro e he
      rw [he]
      exact decide_eq_true h
    rw [lookup_cons_eq, if_neg h, if_neg h, lookup_filter _ k' hp]

theorem lookup_of_mem : ∀ (l : List (String × Bool)), (l.map Prod.fst).Nodup →
    ∀ k v, (k, v) ∈ l → l.lookup k = some v := by
  intro l
  induction l with
  | nil => intro _ k v h; cases h
  | cons e l ih =>
    intro hnd k v hmem
    rw [List.map_cons, List.nodup_cons] at hnd
    rw [lookup_cons_eq]
    rcases List.mem_cons.mp hmem with h | h
    · subst h
      simp
    · have hne : k ≠ e.1 := by
        intro hk
        apply hnd.1
        rw [← hk]
        exact List.mem_map_of_mem Prod.fst h
      rw [if_neg hne]
      exact ih hnd.2 k v h

theorem mem_of_lookup : ∀ (l : List (String × Bool)) k v, l.lookup k = some v → (k, v) ∈ l := by
  intro l
  induction l with
  | nil => intro k v h; simp at h
  | cons e l ih =>
    intro k v h
    rw [lookup_cons_eq] at h
    by_cases hk : k = e.1
    · rw [if_pos hk] at h
      have hv : e.2 = v := Option.some.inj h
      exact List.mem_cons.mpr (Or.inl (by rw [hk, ← hv]))
    · rw [if_neg hk] at h
      exact List.mem_cons_of_mem _ (ih k v h)

theorem get_eq_true_iff (s : GoMap) (k : String) : s.get k = true ↔ (k, true) ∈ s.entries := by
  unfold get
  constructor
  · intro h
    cases hl : s.entries.lookup k with
    | none => simp [hl] at h
    | some v =>
      simp [hl] at h
      subst h
      exact mem_of_lookup _ _ _ hl
  · intro h
    simp [lookup_of_mem _ s.nodupKeys _ _ h]

end GoMap

theorem foldl_paths (l : List (String × Bool)) (acc : List String) :
    l.foldl (fun paths e => if e.2 then paths ++ [e.1] else paths) acc
      = acc ++ (l.filter (fun e => e.2)).map Prod.fst := by
  induction l generalizing acc with
  | nil => simp
  | cons e l ih =>
    by_cases he : e.2 = true
    · simp [List.foldl_cons, he, ih, List.filter_cons]
    · simp [List.foldl_cons, he, ih, List.filter_cons]

theorem selectedPaths_eq (s : GoMap) :
    selectedPaths s = (s.entries.filter (fun e => e.2)).map Prod.fst := by
  unfold selectedPaths
  rw [foldl_paths]
  rfl

theorem mem_selectedPaths (s : GoMap) (p : String) :
    p ∈ selectedPaths s ↔ s.get p = true := by
  rw [selectedPaths_eq, GoMap.get_eq_true_iff]
  constructor
  · intro h
    obtain ⟨e, he, hp⟩ := List.mem_map.mp h
    obtain ⟨hmem, hv⟩ := List.mem_filter.mp he
    obtain ⟨k, v⟩ := e
    simp only at hp hv
    subst hp
    subst hv
    exact hmem
  · intro h
    exact List.mem_map.mpr ⟨(p, true), List.mem_filter.mpr ⟨h, rfl⟩, rfl⟩

theorem nodup_selectedPaths (s : GoMap) : (selectedPaths s).Nodup := by
  rw [selectedPaths_eq]
  exact s.nodupKeys.sublist (List.Sublist.map _ (List.filter_sublist _))

theorem selectedPaths_eq_nil (s : GoMap) (h : ∀ p, s.get p = false) : selectedPaths s = [] := by
  apply List.eq_nil_iff_forall_not_mem.mpr
  intro p hp
  have := (mem_selectedPaths s p).mp hp
  rw [h p] at this
  cases this

/-! ## Lemmas on sorting and listing -/

theorem not_nameLess_iff (a b : DirEntry) : ¬ nameLess b a ↔ bytes a.name ≤ bytes b.name := by
  unfold nameLess
  exact not_lt

theorem sortSlice_perm (files : List DirEntry) : (sortSlice files).Perm files :=
  List.perm_insertionSort _ files

theorem sortSlice_sorted (files : List DirEntry) :
    (sortSlice files).Sorted (fun a b => bytes a.name ≤ bytes b.name) := by
  haveI : IsTotal DirEntry (fun a b => ¬ nameLess b a) :=
    ⟨fun a b => by
      rw [not_nameLess_iff, not_nameLess_iff]
      exact le_total _ _⟩
  haveI : IsTrans DirEntry (fun a b => ¬ nameLess b a) :=
    ⟨fun a b c hab hbc => by
      rw [not_nameLess_iff] at hab hbc ⊢
      exact le_trans hab hbc⟩
  have h := List.sorted_insertionSort (fun a b : DirEntry => ¬ nameLess b a) files
  exact List.Pairwise.imp (fun {a b} hab => (not_nameLess_iff a b).mp hab) h

theorem loadFiles_ok (env : Env) (m : model L) (path : String) (next : state)
    (entries : List DirEntry) (h : env.readDir path = .ok entries) :
    loadFiles env m path next =
      ⟨{ m with files := sortSlice entries, currentPath := env.abs path, cursor := 0,
                state := next }, .nil, [.readDir path]⟩ := by
  unfold loadFiles
  rw [h]

theorem loadFiles_error (env : Env) (m : model L) (path : String) (next : state)
    (e : String) (h : env.readDir path = .error e) :
    loadFiles env m path next =
      ⟨{ m with err := some e, state := .showResult }, .quitAfter 2, [.readDir path]⟩ := by
  unfold loadFiles
  rw [h]

/-! ## The listing is sorted -/

/-- C1: when `os.ReadDir` succeeds, `loadFiles` stores a permutation of the entries
read, in ascending byte-wise order of their names, and any other call of
`loadFiles` that reads the same entries stores the same sequence. -/
theorem loadFiles_sorted_perm (env env' : Env) (m m' : model L) (path path' : String)
    (next next' : state) (entries : List DirEntry)
    (h : env.readDir path = .ok entries) (h' : env'.readDir path' = .ok entries) :
    (loadFiles env m path next).m.files.Perm entries ∧
    (loadFiles env m path next).m.files.Sorted (fun a b => bytes a.name ≤ bytes b.name) ∧
    (loadFiles env' m' path' next').m.files = (loadFiles env m path next).m.files := by
  rw [loadFiles_ok env m path next entries h, loadFiles_ok env' m' path' next' entries h']
  exact ⟨sortSlice_perm entries, sortSlice_sorted entries, rfl⟩

/-- Witness for C1: listing `/home` of the demo world, twice, gives `B.txt`, `a.txt`,
`b.txt`, `sub` (upper case sorts before lower case). -/
theorem loadFiles_sorted_perm_witness :
    demoEnv.readDir "." = .ok [⟨"b.txt", false⟩, ⟨"sub", true⟩, ⟨"a.txt", false⟩, ⟨"B.txt", false⟩] ∧
    (loadFiles demoEnv (initialModel demoLib) "." .selectFiles).m.files
      = [⟨"B.txt", false⟩, ⟨"a.txt", false⟩, ⟨"b.txt", false⟩, ⟨"sub", true⟩] ∧
    (loadFiles demoEnv (initialModel demoLib) "." .selectFiles).m.files.Sorted
      (fun a b => bytes a.name ≤ bytes b.name) ∧
    (loadFiles demoEnv (loadFiles demoEnv (initialModel demoLib) "." .selectFiles).m "."
        .selectFiles).m.files
      = (loadFiles demoEnv (initialModel demoLib) "." .selectFiles).m.files :=
  ⟨rfl, by decide,
    (loadFiles_sorted_perm demoEnv demoEnv (initialModel demoLib)
      (loadFiles demoEnv (initialModel demoLib) "." .selectFiles).m "." "." .selectFiles
      .selectFiles _ rfl rfl).2⟩

/-! ## Lemmas on indexing -/

theorem index_ok (files : List DirEntry) (i : Int) (h0 : 0 ≤ i) (h1 : i < files.length) :
    ∃ f, files.get? i.toNat = some f ∧ index files i = .ok f := by
  have hlt : i.toNat < files.length := by omega
  refine ⟨files.get ⟨i.toNat, hlt⟩, List.get?_eq_get hlt, ?_⟩
  unfold index
  rw [if_neg (by omega), List.get?_eq_get hlt]

theorem index_error (files : List DirEntry) (i : Int) (fault : Fault)
    (h : index files i = .error fault) : ¬ (0 ≤ i ∧ i < files.length) := by
  rintro ⟨h0, h1⟩
  obtain ⟨f, _, hf⟩ := index_ok files i h0 h1
  rw [hf] at h
  cases h

/-- The toggle key on the source screen, at a cursor inside the listing. -/
theorem update_toggle (lib : Lib L) (env : Env) (m : model L) (f : DirEntry)
    (hs : m.state = .selectFiles) (hf : index m.files m.cursor = .ok f) :
    Update lib env m (.key " ") =
      .ok ⟨{ m with selected := m.selected.store (env.join m.currentPath f.name)
                      (!m.selected.get (env.join m.currentPath f.name)) }, .nil, []⟩ := by
  simp [Update, updateBrowse, hs, hf]

/-! ## What the helper calls leave alone -/

theorem loadFiles_frame (env : Env) (m : model L) (path : String) (next : state) :
    (loadFiles env m path next).m.selected = m.selected ∧
    (loadFiles env m path next).m.action = m.action ∧
    (loadFiles env m path next).m.destinationPath = m.destinationPath ∧
    (loadFiles env m path next).m.result = m.result ∧
    (loadFiles env m path next).m.actionList = m.actionList ∧
    (loadFiles env m path next).effects = [.readDir path] ∧
    ((loadFiles env m path next).m.state = next ∨
      (loadFiles env m path next).m.state = .showResult) := by
  unfold loadFiles
  cases env.readDir path <;> simp

theorem runCommand_frame (env : Env) (m : model L) (o : Outcome L)
    (h : runCommand env m = .ok o) :
    o.m.state = .showResult ∧ o.m.selected = m.selected ∧ o.m.action = m.action ∧
    o.m.destinationPath = m.destinationPath ∧ o.m.currentPath = m.currentPath ∧
    o.m.files = m.files ∧ o.m.cursor = m.cursor ∧ o.m.actionList = m.actionList ∧
    o.cmd = .quitAfter 2 := by
  unfold runCommand at h
  simp only at h
  split at h
  · cases h
    simp
  · split at h
    · cases h
    · cases h
      simp

/-- A navigation key on the source screen or on the result screen keeps the
selection and stays on one of these two screens. -/
theorem nav_step (lib : Lib L) (env : Env) (m : model L) (k : String) (o : Outcome L)
    (hs : m.state = .selectFiles ∨ m.state = .showResult) (hk : k ∈ navKeys)
    (h : Update lib env m (.key k) = .ok o) :
    o.m.selected = m.selected ∧ (o.m.state = .selectFiles ∨ o.m.state = .showResult) := by
  rcases hs with hs | hs
  · have hl := fun path => loadFiles_frame env m path .selectFiles
    simp only [navKeys, List.mem_cons, List.mem_singleton, List.not_mem_nil, or_false] at hk
    rcases hk with hk | hk | hk | hk | hk | hk | hk | hk <;> subst hk <;>
      simp only [Update, updateBrowse, hs] at h
    · simp at h
      subst h
      split <;> simp [hs]
    · simp at h
      subst h
      split <;> simp [hs]
    · simp at h
      subst h
      split <;> simp [hs]
    · simp at h
      subst h
      split <;> simp [hs]
    · simp at h
      split at h
      · cases h
      · split at h
        · cases h
          exact ⟨(hl _).1, (hl _).2.2.2.2.2.2⟩
        · cases h
          simp [hs]
    · simp at h
      split at h
      · cases h
      · split at h
        · cases h
          exact ⟨(hl _).1, (hl _).2.2.2.2.2.2⟩
        · cases h
          simp [hs]
    · simp at h
      split at h
      · cases h
        simp [hs]
      · cases h
        exact ⟨(hl _).1, (hl _).2.2.2.2.2.2⟩
    · simp at h
      split at h
      · cases h
        simp [hs]
      · cases h
        exact ⟨(hl _).1, (hl _).2.2.2.2.2.2⟩
  · simp only [Update, hs] at h
    split at h <;> cases h <;> simp [hs]

theorem nav_run (lib : Lib L) (steps : List (Env × Msg)) :
    ∀ (m m' : model L), (m.state = .selectFiles ∨ m.state = .showResult) →
      (∀ s ∈ steps, ∃ k ∈ navKeys, s.2 = .key k) → runKeys lib m steps = .ok m' →
      m'.selected = m.selected := by
  induction steps with
  | nil =>
    intro m m' _ _ h
    simp only [runKeys] at h
    cases h
    rfl
  | cons s rest ih =>
    intro m m' hs hk h
    obtain ⟨env, msg⟩ := s
    obtain ⟨k, hkn, hmsg⟩ := hk (env, msg) (List.mem_cons_self _ _)
    simp only at hmsg
    subst hmsg
    simp only [runKeys] at h
    split at h
    · cases h
    · rename_i o ho
      obtain ⟨hsel, hst⟩ := nav_step lib env m k o hs hkn ho
      rw [← hsel]
      exact ih o.m m' hst (fun s hs => hk s (List.mem_cons_of_mem _ hs)) h

/-! ## Toggling -/

/-- C2: on the source screen with the cursor inside the listing, the toggle key
negates the selection value of `join(currentPath, name under the cursor)`, and a
second toggle restores the value it had (an absent key reads as `false`). -/
theorem toggle_twice (lib : Lib L) (env : Env) (m : model L)
    (hs : m.state = .selectFiles) (h0 : 0 ≤ m.cursor) (h1 : m.cursor < m.files.length) :
    ∃ f o1 o2, m.files.get? m.cursor.toNat = some f ∧
      Update lib env m (.key " ") = .ok o1 ∧
      Update lib env o1.m (.key " ") = .ok o2 ∧
      o1.m.selected.get (env.join m.currentPath f.name)
        = !m.selected.get (env.join m.currentPath f.name) ∧
      o2.m.selected.get (env.join m.currentPath f.name)
        = m.selected.get (env.join m.currentPath f.name) := by
  obtain ⟨f, hget, hf⟩ := index_ok m.files m.cursor h0 h1
  refine ⟨f, _, _, hget, update_toggle lib env m f hs hf, update_toggle lib env _ f hs hf, ?_, ?_⟩
  · simp [GoMap.get_store]
  · simp [GoMap.get_store]

/-- Witness for C2: in `/home` with the cursor on `a.txt` and nothing selected, the
first toggle selects `/home/a.txt` and the second one clears it again. -/
theorem toggle_twice_witness :
    (demoModel "Copy" GoMap.empty).state = .selectFiles ∧
    0 ≤ (demoModel "Copy" GoMap.empty).cursor ∧
    (demoModel "Copy" GoMap.empty).cursor < (demoModel "Copy" GoMap.empty).files.length ∧
    ∃ o1 o2,
      Update demoLib demoEnv (demoModel "Copy" GoMap.empty) (.key " ") = .ok o1 ∧
      Update demoLib demoEnv o1.m (.key " ") = .ok o2 ∧
      o1.m.selected.get "/home/a.txt" = true ∧ o2.m.selected.get "/home/a.txt" = false := by
  refine ⟨rfl, by decide, by decide, ?_⟩
  obtain ⟨f, o1, o2, hf, h1, h2, h3, h4⟩ :=
    toggle_twice demoLib demoEnv (demoModel "Copy" GoMap.empty) rfl (by decide) (by decide)
  have hf2 : f = ⟨"a.txt", false⟩ := by
    have : (demoModel "Copy" GoMap.empty).files.get? (demoModel "Copy" GoMap.empty).cursor.toNat
        = some ⟨"a.txt", false⟩ := rfl
    rw [this] at hf
    exact (Option.some.inj hf).symm
  subst hf2
  exact ⟨o1, o2, h1, h2, h3, h4⟩

/-! ## Selection and navigation -/

/-- C3: on the source screen the navigation keys (cursor up and down, open, back)
leave the whole selection map, hence the value of every path, unchanged, whether
the listing they trigger succeeds or fails; the only step that returns no model
is `open` with the cursor outside the listing. The same holds along any sequence
of navigation keys, and in particular after opening a directory and going back. -/
theorem selection_persists (lib : Lib L) (m : model L) (hs : m.state = .selectFiles) :
    (∀ env k, k ∈ navKeys →
      match Update lib env m (.key k) with
      | .ok o => o.m.selected = m.selected
      | .error _ => (k = "right" ∨ k = "enter") ∧ ¬ (0 ≤ m.cursor ∧ m.cursor < m.files.length)) ∧
    (∀ steps m', (∀ s ∈ steps, ∃ k ∈ navKeys, s.2 = .key k) →
      runKeys lib m steps = .ok m' → m'.selected = m.selected) ∧
    (0 ≤ m.cursor → m.cursor < m.files.length → ∀ envD envA, ∃ o1 o2,
      Update lib envD m (.key "right") = .ok o1 ∧ Update lib envA o1.m (.key "left") = .ok o2 ∧
      o2.m.selected = m.selected) := by
  refine ⟨?_, ?_, ?_⟩
  · intro env k hk
    cases hu : Update lib env m (.key k) with
    | ok o => exact (nav_step lib env m k o (Or.inl hs) hk hu).1
    | error fault =>
      simp only [navKeys, List.mem_cons, List.mem_singleton, List.not_mem_nil, or_false] at hk
      rcases hk with hk | hk | hk | hk | hk | hk | hk | hk <;> subst hk <;>
        simp only [Update, updateBrowse, hs] at hu
      · simp at hu
      · simp at hu
      · simp at hu
      · simp at hu
      · simp at hu
        split at hu
        · rename_i fault' hi
          exact ⟨Or.inl rfl, index_error _ _ _ hi⟩
        · split at hu <;> cases hu
      · simp at hu
        split at hu
        · rename_i fault' hi
          exact ⟨Or.inr rfl, index_error _ _ _ hi⟩
        · split at hu <;> cases hu
      · simp at hu
        split at hu <;> cases hu
      · simp at hu
        split at hu <;> cases hu
  · intro steps m' hk h
    exact nav_run lib steps m m' (Or.inl hs) hk h
  · intro h0 h1 envD envA
    obtain ⟨f, _, hf⟩ := index_ok m.files m.cursor h0 h1
    have hopen : ∃ o1, Update lib envD m (.key "right") = .ok o1 := by
      simp only [Update, updateBrowse, hs]
      simp [hf]
      split <;> exact ⟨_, rfl⟩
    obtain ⟨o1, ho1⟩ := hopen
    obtain ⟨hsel1, hst1⟩ := nav_step lib envD m "right" o1 (Or.inl hs) (by simp [navKeys]) ho1
    have hback : ∃ o2, Update lib envA o1.m (.key "left") = .ok o2 := by
      rcases hst1 with hst | hst
      · simp only [Update, updateBrowse, hst]
        simp
        split <;> exact ⟨_, rfl⟩
      · simp only [Update, hst]
        simp
    obtain ⟨o2, ho2⟩ := hback
    obtain ⟨hsel2, _⟩ := nav_step lib envA o1.m "left" o2 hst1 (by simp [navKeys]) ho2
    exact ⟨o1, o2, ho1, ho2, hsel2.trans hsel1⟩

/-- Witness for C3: with `/home/a.txt` selected in `/home`, moving the cursor down to
`sub`, opening it and going back ends in `/home` on the source screen with
`/home/a.txt` still selected. -/
theorem selection_persists_witness :
    (demoModel "Copy" (GoMap.empty.store "/home/a.txt" true)).state = .selectFiles ∧
    ∃ m', runKeys demoLib (demoModel "Copy" (GoMap.empty.store "/home/a.txt" true))
        [(demoEnv, .key "down"), (demoEnv, .key "down"), (demoEnv, .key "right"),
         (demoEnv, .key "left")] = .ok m' ∧
      m'.state = .selectFiles ∧ m'.currentPath = "/home" ∧
      m'.selected.get "/home/a.txt" = true := by
  have hrun : runKeys demoLib (demoModel "Copy" (GoMap.empty.store "/home/a.txt" true))
      [(demoEnv, .key "down"), (demoEnv, .key "down"), (demoEnv, .key "right"),
       (demoEnv, .key "left")]
      = .ok { demoModel "Copy" (GoMap.empty.store "/home/a.txt" true) with cursor := 0 } := rfl
  refine ⟨rfl, _, hrun, rfl, rfl, ?_⟩
  rw [(selection_persists demoLib (demoModel "Copy" (GoMap.empty.store "/home/a.txt" true))
    rfl).2.1 _ _ ?_ hrun]
  · rfl
  · intro s hs
    simp only [List.mem_cons, List.mem_singleton, List.not_mem_nil, or_false] at hs
    rcases hs with rfl | rfl | rfl | rfl <;> exact ⟨_, by decide, rfl⟩

/-! ## Advancing from the source screen -/

/-- C4: on the source screen with action `Remove`, the advance key `tab` returns the
same model on the confirmation screen, with no command and no external call; the
new screen is neither `execute` nor `showResult`. -/
theorem advance_remove (lib : Lib L) (env : Env) (m : model L)
    (hs : m.state = .selectFiles) (ha : m.action = "Remove") :
    ∃ o, Update lib env m (.key "tab") = .ok o ∧
      o.m = { m with state := .confirmRemove } ∧ o.cmd = .nil ∧ o.effects = [] ∧
      o.m.state = .confirmRemove ∧ o.m.state ≠ .execute ∧ o.m.state ≠ .showResult := by
  refine ⟨⟨{ m with state := .confirmRemove }, .nil, []⟩, ?_, rfl, rfl, rfl, rfl, ?_, ?_⟩
  · simp [Update, updateBrowse, hs, ha]
  · simp
  · simp

/-- Witness for C4: `tab` in `/home` with action `Remove` and `/home/a.txt` selected. -/
theorem advance_remove_witness :
    (demoModel "Remove" (GoMap.empty.store "/home/a.txt" true)).state = .selectFiles ∧
    (demoModel "Remove" (GoMap.empty.store "/home/a.txt" true)).action = "Remove" ∧
    ∃ o, Update demoLib demoEnv (demoModel "Remove" (GoMap.empty.store "/home/a.txt" true))
        (.key "tab") = .ok o ∧
      o.m.state = .confirmRemove ∧ o.cmd = .nil ∧ o.effects = [] := by
  obtain ⟨o, h, _, hc, he, hst, _, _⟩ :=
    advance_remove demoLib demoEnv (demoModel "Remove" (GoMap.empty.store "/home/a.txt" true))
      rfl rfl
  exact ⟨rfl, rfl, o, h, hst, hc, he⟩

/-- With no key mapping to `true`, `runCommand` makes no external call and reports
that nothing is selected. -/
theorem runCommand_none (env : Env) (m : model L) (hn : ∀ p, m.selected.get p = false) :
    runCommand env m =
      .ok ⟨{ m with result := "No files selected.", state := .showResult }, .quitAfter 2, []⟩ := by
  unfold runCommand
  simp [selectedPaths_eq_nil m.selected hn]

/-- The advance key on the destination screen stores the current path as the
destination, enters `execute` and runs the command. -/
theorem update_tab_destination (lib : Lib L) (env : Env) (m : model L)
    (hs : m.state = .selectDestination) :
    Update lib env m (.key "tab") =
      runCommand env { m with destinationPath := m.currentPath, state := .execute } := by
  simp [Update, updateBrowse, hs]

/-- Counterexample to C5: in `/home` with action `Copy` and nothing selected, `tab`
lists `.` and moves to the destination screen; `result` stays empty and the
result screen is not entered. -/
theorem advance_copy_nothing_selected_counterexample :
    (demoModel "Copy" GoMap.empty).state = .selectFiles ∧
    (demoModel "Copy" GoMap.empty).action = "Copy" ∧
    (∀ p, (demoModel "Copy" GoMap.empty).selected.get p = false) ∧
    (∃ o, Update demoLib demoEnv (demoModel "Copy" GoMap.empty) (.key "tab") = .ok o ∧
      o.m.state = .selectDestination ∧ o.m.result = "") ∧
    ¬ (∃ o, Update demoLib demoEnv (demoModel "Copy" GoMap.empty) (.key "tab") = .ok o ∧
      o.m.state = .showResult ∧ o.m.result = "No files selected.") := by
  have hu : Update demoLib demoEnv (demoModel "Copy" GoMap.empty) (.key "tab")
      = .ok ⟨{ demoModel "Copy" GoMap.empty with cursor := 0, state := .selectDestination },
             .nil, [.readDir "."]⟩ := rfl
  refine ⟨rfl, rfl, fun p => rfl, ⟨_, hu, rfl, rfl⟩, ?_⟩
  rintro ⟨o, ho, hst, _⟩
  rw [hu] at ho
  cases ho
  cases hst

/-- C5, amended: on the source screen with action `Copy` and no path selected, `tab`
lists `.` and, the read succeeding, moves to the destination screen with `result`
unchanged and no executor call; the next `tab`, on the destination screen, moves
to the result screen with `No files selected.`, again without an executor call. -/
theorem advance_copy_nothing_selected (lib : Lib L) (env env' : Env) (m : model L)
    (entries : List DirEntry) (hs : m.state = .selectFiles) (ha : m.action = "Copy")
    (hn : ∀ p, m.selected.get p = false) (hr : env.readDir "." = .ok entries) :
    ∃ o1 o2, Update lib env m (.key "tab") = .ok o1 ∧
      o1.m.state = .selectDestination ∧ o1.m.result = m.result ∧
      o1.effects = [.readDir "."] ∧ o1.cmd = .nil ∧
      Update lib env' o1.m (.key "tab") = .ok o2 ∧
      o2.m.state = .showResult ∧ o2.m.result = "No files selected." ∧
      o2.effects = [] ∧ o2.cmd = .quitAfter 2 := by
  have h1 : Update lib env m (.key "tab") = .ok (loadFiles env m "." .selectDestination) := by
    simp [Update, updateBrowse, hs, ha]
  have hl := loadFiles_ok env m "." .selectDestination entries hr
  have hst : (loadFiles env m "." .selectDestination).m.state = .selectDestination := by rw [hl]
  have h3 := update_tab_destination lib env' (loadFiles env m "." .selectDestination).m hst
  have h4 := runCommand_none env'
    { (loadFiles env m "." .selectDestination).m with
      destinationPath := (loadFiles env m "." .selectDestination).m.currentPath,
      state := .execute }
    (by rw [hl]; exact hn)
  exact ⟨_, _, h1, hst, by rw [hl], by rw [hl], by rw [hl], h3.trans h4, rfl, rfl, rfl, rfl⟩

/-- Witness for C5, amended: the two `tab` steps in the demo world. -/
theorem advance_copy_nothing_selected_witness :
    (demoModel "Copy" GoMap.empty).state = .selectFiles ∧
    (demoModel "Copy" GoMap.empty).action = "Copy" ∧
    (∀ p, (demoModel "Copy" GoMap.empty).selected.get p = false) ∧
    demoEnv.readDir "." =
      .ok [⟨"b.txt", false⟩, ⟨"sub", true⟩, ⟨"a.txt", false⟩, ⟨"B.txt", false⟩] ∧
    ∃ o1 o2, Update demoLib demoEnv (demoModel "Copy" GoMap.empty) (.key "tab") = .ok o1 ∧
      o1.m.state = .selectDestination ∧
      Update demoLib demoEnv o1.m (.key "tab") = .ok o2 ∧
      o2.m.state = .showResult ∧ o2.m.result = "No files selected." ∧ o2.effects = [] := by
  obtain ⟨o1, o2, h1, hst1, _, _, _, h2, hst2, hres, heff, _⟩ :=
    advance_copy_nothing_selected demoLib demoEnv demoEnv (demoModel "Copy" GoMap.empty) _
      rfl rfl (fun _ => rfl) rfl
  exact ⟨rfl, rfl, fun _ => rfl, rfl, o1, o2, h1, hst1, h2, hst2, hres, heff⟩

/-! ## Running the command -/

/-- C6: when no key of the selection maps to `true`, `runCommand` makes no external
call, sets `result` to `No files selected.`, moves to the result screen, leaves
`err` (and every other field) as it was, and returns the 2-second quit timer. -/
theorem runCommand_nothing_selected (env : Env) (m : model L)
    (hn : ∀ p, m.selected.get p = false) :
    ∃ o, runCommand env m = .ok o ∧ o.effects = [] ∧
      o.m = { m with result := "No files selected.", state := .showResult } ∧
      o.m.result = "No files selected." ∧ o.m.state = .showResult ∧ o.m.err = m.err ∧
      o.cmd = .quitAfter 2 :=
  ⟨_, runCommand_none env m hn, rfl, rfl, rfl, rfl, rfl, rfl⟩

/-- Witness for C6: a selection whose only key was toggled on and off again. -/
theorem runCommand_nothing_selected_witness :
    ((GoMap.empty.store "/home/a.txt" true).store "/home/a.txt" false).entries
      = [("/home/a.txt", false)] ∧
    (∀ p, ((GoMap.empty.store "/home/a.txt" true).store "/home/a.txt" false).get p = false) ∧
    ∃ o, runCommand demoEnv
        (demoModel "Copy" ((GoMap.empty.store "/home/a.txt" true).store "/home/a.txt" false))
        = .ok o ∧
      o.effects = [] ∧ o.m.result = "No files selected." ∧ o.m.state = .showResult ∧
      o.m.err = none ∧ o.cmd = .quitAfter 2 := by
  have hn : ∀ p,
      ((GoMap.empty.store "/home/a.txt" true).store "/home/a.txt" false).get p = false := by
    intro p
    simp only [GoMap.get_store]
    by_cases hp : p = "/home/a.txt"
    · simp [hp]
    · simp [hp]
      rfl
  refine ⟨by decide, hn, ?_⟩
  obtain ⟨o, h, heff, _, hres, hst, herr, hcmd⟩ :=
    runCommand_nothing_selected demoEnv
      (demoModel "Copy" ((GoMap.empty.store "/home/a.txt" true).store "/home/a.txt" false)) hn
  exact ⟨o, h, heff, hres, hst, herr, hcmd⟩

/-- With a selected path and one of the three actions, `runCommand` calls the
executor once, with the program and arguments chosen by `command`. -/
theorem runCommand_some (env : Env) (m : model L) (p0 : String) (name : String)
    (args : List String) (hsel : m.selected.get p0 = true)
    (hc : command m.action (selectedPaths m.selected) m.destinationPath = some (name, args)) :
    runCommand env m =
      .ok ⟨{ m with result := (env.combinedOutput name args).1,
                    err := (env.combinedOutput name args).2, state := .showResult },
           .quitAfter 2, [.exec name args]⟩ := by
  have hne : (selectedPaths m.selected).length ≠ 0 := by
    intro h0
    have hmem := (mem_selectedPaths m.selected p0).mpr hsel
    rw [List.length_eq_zero.mp h0] at hmem
    cases hmem
  unfold runCommand
  simp only
  rw [if_neg hne, hc]

/-- C7: with at least one selected path, `runCommand` calls the executor exactly once.
The sources `selectedPaths m.selected` are the keys mapping to `true`, each once.
The call is `cp -r sources... destinationPath` for `Copy`, `mv sources...
destinationPath` for `Move`, and `rm -rf sources...` for `Remove`, where the
argument list is the same whatever `destinationPath` holds and does not contain
it unless it is itself a source or the flag. -/
theorem runCommand_invokes_once (env : Env) (m : model L) (p0 : String)
    (hsel : m.selected.get p0 = true) :
    (selectedPaths m.selected).Nodup ∧
    (∀ p, p ∈ selectedPaths m.selected ↔ m.selected.get p = true) ∧
    (m.action = "Copy" → ∃ o, runCommand env m = .ok o ∧
      o.effects = [.exec "cp" (["-r"] ++ selectedPaths m.selected ++ [m.destinationPath])]) ∧
    (m.action = "Move" → ∃ o, runCommand env m = .ok o ∧
      o.effects = [.exec "mv" (selectedPaths m.selected ++ [m.destinationPath])]) ∧
    (m.action = "Remove" →
      (∃ o, runCommand env m = .ok o ∧
        o.effects = [.exec "rm" (["-rf"] ++ selectedPaths m.selected)]) ∧
      (∀ d, ∃ o, runCommand env { m with destinationPath := d } = .ok o ∧
        o.effects = [.exec "rm" (["-rf"] ++ selectedPaths m.selected)]) ∧
      (m.destinationPath ≠ "-rf" → m.selected.get m.destinationPath = false →
        m.destinationPath ∉ ["-rf"] ++ selectedPaths m.selected)) := by
  refine ⟨nodup_selectedPaths _, mem_selectedPaths _, ?_, ?_, ?_⟩
  · intro ha
    exact ⟨_, runCommand_some env m p0 _ _ hsel (by simp [command, ha]), rfl⟩
  · intro ha
    exact ⟨_, runCommand_some env m p0 _ _ hsel (by simp [command, ha]), rfl⟩
  · intro ha
    refine ⟨?_, ?_, ?_⟩
    · exact ⟨_, runCommand_some env m p0 _ _ hsel (by simp [command, ha]), rfl⟩
    · intro d
      exact ⟨_, runCommand_some env { m with destinationPath := d } p0 _ _ hsel
        (by simp [command, ha]), rfl⟩
    · intro hflag hd hmem
      rcases List.mem_append.mp hmem with h | h
      · exact hflag (List.mem_singleton.mp h)
      · rw [(mem_selectedPaths m.selected _).mp h] at hd
        cases hd

/-- Witness for C7: action `Copy`, `/home/a.txt` selected, `/home/b.txt` toggled on
and off, destination `/tmp/dest`: the one call is `cp -r /home/a.txt /tmp/dest`. -/
theorem runCommand_invokes_once_witness :
    (((GoMap.empty.store "/home/a.txt" true).store "/home/b.txt" true).store
      "/home/b.txt" false).get "/home/a.txt" = true ∧
    ∃ o, runCommand demoEnv
        { demoModel "Copy" (((GoMap.empty.store "/home/a.txt" true).store "/home/b.txt" true).store
            "/home/b.txt" false) with destinationPath := "/tmp/dest" } = .ok o ∧
      o.effects = [.exec "cp" ["-r", "/home/a.txt", "/tmp/dest"]] := by
  obtain ⟨o, h, heff⟩ :=
    (runCommand_invokes_once demoEnv
      { demoModel "Copy" (((GoMap.empty.store "/home/a.txt" true).store "/home/b.txt" true).store
          "/home/b.txt" false) with destinationPath := "/tmp/dest" }
      "/home/a.txt" (by decide)).2.2.1 rfl
  exact ⟨by decide, o, h, heff⟩

/-! ## Quitting -/

/-- C8: on the action, source, destination and confirmation screens the keys `q`
and `ctrl+c` return the quit command; the screen, `result`, `err`, the selection
and `destinationPath` stay as they were and no external call is made. -/
theorem quit_from_interactive (lib : Lib L) (env : Env) (m : model L) (k : String)
    (hs : m.state = .selectAction ∨ m.state = .selectFiles ∨ m.state = .selectDestination ∨
      m.state = .confirmRemove)
    (hk : k = "q" ∨ k = "ctrl+c") :
    ∃ o, Update lib env m (.key k) = .ok o ∧ o.cmd = .quit ∧ o.effects = [] ∧
      o.m.state = m.state ∧ o.m.state ≠ .execute ∧ o.m.state ≠ .showResult ∧
      o.m.result = m.result ∧ o.m.err = m.err ∧ o.m.selected = m.selected ∧
      o.m.destinationPath = m.destinationPath := by
  rcases hs with hs | hs | hs | hs <;> rcases hk with hk | hk <;> subst hk
  · exact ⟨⟨{ m with actionList := (lib.listUpdate m.actionList (.key "q")).1 }, .quit, []⟩,
      by simp [Update, hs], rfl, rfl, rfl, by simp [hs], by simp [hs], rfl, rfl, rfl, rfl⟩
  · exact ⟨⟨{ m with actionList := (lib.listUpdate m.actionList (.key "ctrl+c")).1 }, .quit, []⟩,
      by simp [Update, hs], rfl, rfl, rfl, by simp [hs], by simp [hs], rfl, rfl, rfl, rfl⟩
  · exact ⟨⟨m, .quit, []⟩, by simp [Update, updateBrowse, hs], rfl, rfl, rfl, by simp [hs],
      by simp [hs], rfl, rfl, rfl, rfl⟩
  · exact ⟨⟨m, .quit, []⟩, by simp [Update, updateBrowse, hs], rfl, rfl, rfl, by simp [hs],
      by simp [hs], rfl, rfl, rfl, rfl⟩
  · exact ⟨⟨m, .quit, []⟩, by simp [Update, updateBrowse, hs], rfl, rfl, rfl, by simp [hs],
      by simp [hs], rfl, rfl, rfl, rfl⟩
  · exact ⟨⟨m, .quit, []⟩, by simp [Update, updateBrowse, hs], rfl, rfl, rfl, by simp [hs],
      by simp [hs], rfl, rfl, rfl, rfl⟩
  · exact ⟨⟨m, .quit, []⟩, by simp [Update, hs], rfl, rfl, rfl, by simp [hs],
      by simp [hs], rfl, rfl, rfl, rfl⟩
  · exact ⟨⟨m, .quit, []⟩, by simp [Update, hs], rfl, rfl, rfl, by simp [hs],
      by simp [hs], rfl, rfl, rfl, rfl⟩

/-- Witness for C8: `q` on the confirmation screen, action `Remove`, one file selected. -/
theorem quit_from_interactive_witness :
    ({ demoModel "Remove" (GoMap.empty.store "/home/a.txt" true) with
        state := .confirmRemove } : model (List actionItem × Nat)).state = .confirmRemove ∧
    ∃ o, Update demoLib demoEnv
        { demoModel "Remove" (GoMap.empty.store "/home/a.txt" true) with state := .confirmRemove }
        (.key "q") = .ok o ∧
      o.cmd = .quit ∧ o.effects = [] ∧ o.m.state = .confirmRemove := by
  obtain ⟨o, h, hc, he, hst, _⟩ :=
    quit_from_interactive demoLib demoEnv
      { demoModel "Remove" (GoMap.empty.store "/home/a.txt" true) with state := .confirmRemove }
      "q" (Or.inr (Or.inr (Or.inr rfl))) (Or.inl rfl)
  exact ⟨rfl, o, h, hc, he, hst⟩

/-! ## The shape of a step on the two browsing screens -/

/-- What a step on the source or destination screen can be: a cursor move (or
nothing at all), a toggle, a listing, the move to the confirmation screen, or
the run of the command. -/
theorem updateBrowse_cases (env : Env) (m : model L) (msg : Msg) (o : Outcome L)
    (h : updateBrowse env m msg = .ok o) :
    (∃ c, o.m = { m with cursor := c } ∧ o.effects = [] ∧
      (c = m.cursor ∨ (0 < m.cursor ∧ c = m.cursor - 1) ∨
        (m.cursor < (m.files.length : Int) - 1 ∧ c = m.cursor + 1))) ∨
    (∃ s, m.state = .selectFiles ∧ o.m = { m with selected := s } ∧ o.effects = []) ∨
    (∃ path, o = loadFiles env m path m.state) ∨
    (m.state = .selectFiles ∧ m.action ≠ "Remove" ∧ o = loadFiles env m "." .selectDestination) ∨
    (m.state = .selectFiles ∧ m.action = "Remove" ∧ o.m = { m with state := .confirmRemove } ∧
      o.effects = []) ∨
    (m.state = .selectDestination ∧ msg = .key "tab" ∧
      runCommand env { m with destinationPath := m.currentPath, state := .execute } = .ok o) := by
  cases msg with
  | other t =>
    simp only [updateBrowse] at h
    cases h
    exact Or.inl ⟨m.cursor, rfl, rfl, Or.inl rfl⟩
  | key k =>
    simp only [updateBrowse] at h
    by_cases h1 : k = "up" ∨ k = "k"
    · rw [if_pos h1] at h
      cases h
      by_cases hc : m.cursor > 0
      · exact Or.inl ⟨m.cursor - 1, by simp [hc], rfl, Or.inr (Or.inl ⟨hc, rfl⟩)⟩
      · exact Or.inl ⟨m.cursor, by simp [hc], rfl, Or.inl rfl⟩
    rw [if_neg h1] at h
    by_cases h2 : k = "down" ∨ k = "j"
    · rw [if_pos h2] at h
      cases h
      by_cases hc : m.cursor < (m.files.length : Int) - 1
      · exact Or.inl ⟨m.cursor + 1, by simp [hc], rfl, Or.inr (Or.inr ⟨hc, rfl⟩)⟩
      · exact Or.inl ⟨m.cursor, by simp [hc], rfl, Or.inl rfl⟩
    rw [if_neg h2] at h
    by_cases h3 : k = "right" ∨ k = "enter"
    · rw [if_pos h3] at h
      split at h
      · cases h
      · split at h
        · cases h
          exact Or.inr (Or.inr (Or.inl ⟨_, rfl⟩))
        · cases h
          exact Or.inl ⟨m.cursor, rfl, rfl, Or.inl rfl⟩
    rw [if_neg h3] at h
    by_cases h4 : k = "left" ∨ k = "backspace"
    · rw [if_pos h4] at h
      split at h
      · cases h
        exact Or.inr (Or.inr (Or.inl ⟨_, rfl⟩))
      · cases h
        exact Or.inl ⟨m.cursor, rfl, rfl, Or.inl rfl⟩
    rw [if_neg h4] at h
    by_cases h5 : k = " "
    · rw [if_pos h5] at h
      split at h
      · rename_i hs
        split at h
        · cases h
        · cases h
          exact Or.inr (Or.inl ⟨_, hs, rfl, rfl⟩)
      · cases h
        exact Or.inl ⟨m.cursor, rfl, rfl, Or.inl rfl⟩
    rw [if_neg h5] at h
    by_cases h6 : k = "tab"
    · rw [if_pos h6] at h
      split at h
      · rename_i hs
        split at h
        · rename_i ha
          cases h
          exact Or.inr (Or.inr (Or.inr (Or.inr (Or.inl ⟨hs, ha, rfl, rfl⟩))))
        · rename_i ha
          cases h
          exact Or.inr (Or.inr (Or.inr (Or.inl ⟨hs, ha, rfl⟩)))
      · split at h
        · rename_i hs
          exact Or.inr (Or.inr (Or.inr (Or.inr (Or.inr ⟨hs, by rw [h6], h⟩))))
        · cases h
          exact Or.inl ⟨m.cursor, rfl, rfl, Or.inl rfl⟩
    rw [if_neg h6] at h
    split at h <;> cases h <;> exact Or.inl ⟨m.cursor, rfl, rfl, Or.inl rfl⟩

/-! ## The invariant is kept -/

theorem inv_init (lib : Lib L) : Inv lib (initialModel lib) := by
  refine ⟨?_, ?_, Or.inl rfl, ?_, lib.listItems_new _, ?_⟩ <;> simp [initialModel]

theorem inv_loadFiles (lib : Lib L) (env : Env) (m : model L) (path : String) (next : state)
    (hd : m.destinationPath = "") (hl : lib.listItems m.actionList = actionItems)
    (ha : m.action = "Copy" ∨ m.action = "Move" ∨ m.action = "Remove")
    (hn : next = .selectFiles ∨ (next = .selectDestination ∧ m.action ≠ "Remove")) :
    Inv lib (loadFiles env m path next).m := by
  unfold loadFiles
  cases env.readDir path with
  | error e =>
    exact ⟨by simp, by simp, Or.inl hd, by simp, hl, fun _ => ha⟩
  | ok files =>
    refine ⟨?_, ?_, Or.inl hd, ?_, hl, fun _ => ha⟩
    · rcases hn with hn | ⟨hn, _⟩ <;> simp [hn]
    · rcases hn with hn | ⟨hn, hr⟩
      · simp [hn]
      · intro _
        exact hr
    · rcases hn with hn | ⟨hn, _⟩ <;> simp [hn]

theorem inv_runCommand (lib : Lib L) (env : Env) (m : model L) (o : Outcome L)
    (hl : lib.listItems m.actionList = actionItems)
    (ha : m.action = "Copy" ∨ m.action = "Move" ∨ m.action = "Remove")
    (hd : m.destinationPath = "" ∨ m.destinationPath = m.currentPath)
    (h : runCommand env m = .ok o) : Inv lib o.m := by
  obtain ⟨hst, _, hact, hdest, hcur, _, _, hlist, _⟩ := runCommand_frame env m o h
  refine ⟨?_, ?_, ?_, ?_, ?_, ?_⟩
  · simp [hst]
  · simp [hst]
  · rcases hd with hd | hd
    · exact Or.inl (hdest.trans hd)
    · exact Or.inr ⟨hst, by rw [hdest, hcur, hd]⟩
  · simp [hst]
  · rw [hlist]
    exact hl
  · intro _
    rw [hact]
    exact ha

theorem runCommand_total (env : Env) (m : model L)
    (ha : m.action = "Copy" ∨ m.action = "Move" ∨ m.action = "Remove") :
    ∃ o, runCommand env m = .ok o := by
  unfold runCommand
  simp only
  split
  · exact ⟨_, rfl⟩
  · rcases ha with ha | ha | ha <;> simp [command, ha]

theorem inv_step (lib : Lib L) (env : Env) (msg : Msg) (m : model L) (o : Outcome L)
    (hi : Inv lib m) (h : Update lib env m msg = .ok o) : Inv lib o.m := by
  obtain ⟨hconf, hdst, hdest, hex, hlist, hact⟩ := hi
  cases hs : m.state with
  | selectAction =>
    have hd : m.destinationPath = "" := by
      rcases hdest with hd | ⟨hd, _⟩
      · exact hd
      · rw [hs] at hd
        cases hd
    have hl' : lib.listItems (lib.listUpdate m.actionList msg).1 = actionItems := by
      rw [lib.listItems_update]
      exact hlist
    have hstay : Inv lib { m with actionList := (lib.listUpdate m.actionList msg).1 } :=
      ⟨by simp [hs], by simp [hs], Or.inl hd, by simp [hs], hl', by simp [hs]⟩
    simp only [hs] at hstay
    simp only [Update, hs] at h
    cases msg with
    | other t =>
      simp only at h
      cases h
      exact hstay
    | key k =>
      simp only at h
      split at h
      · split at h
        · rename_i item hitem
          cases h
          have hmem := lib.selectedItem_mem _ _ hitem
          rw [hl'] at hmem
          refine inv_loadFiles lib env _ _ _ hd hl' ?_ (Or.inl rfl)
          simp only [actionItems, List.mem_cons, List.mem_singleton, List.not_mem_nil,
            or_false] at hmem
          rcases hmem with hm | hm | hm <;> subst hm <;> simp
        · cases h
          exact hstay
      · split at h <;> cases h <;> exact hstay
  | selectFiles =>
    have hd : m.destinationPath = "" := by
      rcases hdest with hd | ⟨hd, _⟩
      · exact hd
      · rw [hs] at hd
        cases hd
    have ha := hact (by simp [hs])
    simp only [Update, hs] at h
    rcases updateBrowse_cases env m msg o h with
      ⟨c, hc, _⟩ | ⟨sel, _, hc, _⟩ | ⟨path, hc⟩ | ⟨_, hr, hc⟩ | ⟨_, hr, hc, _⟩ | ⟨hd2, _⟩
    · rw [hc]
      exact ⟨hconf, hdst, hdest, hex, hlist, hact⟩
    · rw [hc]
      exact ⟨hconf, hdst, hdest, hex, hlist, hact⟩
    · rw [hc, hs]
      exact inv_loadFiles lib env m path _ hd hlist ha (Or.inl rfl)
    · rw [hc]
      exact inv_loadFiles lib env m "." _ hd hlist ha (Or.inr ⟨rfl, hr⟩)
    · rw [hc]
      exact ⟨fun _ => hr, by simp, Or.inl hd, by simp, hlist, fun _ => ha⟩
    · rw [hs] at hd2
      cases hd2
  | selectDestination =>
    have hd : m.destinationPath = "" := by
      rcases hdest with hd | ⟨hd, _⟩
      · exact hd
      · rw [hs] at hd
        cases hd
    have ha := hact (by simp [hs])
    simp only [Update, hs] at h
    rcases updateBrowse_cases env m msg o h with
      ⟨c, hc, _⟩ | ⟨sel, hs2, _⟩ | ⟨path, hc⟩ | ⟨hs2, _⟩ | ⟨hs2, _⟩ | ⟨_, _, hrun⟩
    · rw [hc]
      exact ⟨hconf, hdst, hdest, hex, hlist, hact⟩
    · rw [hs] at hs2
      cases hs2
    · rw [hc, hs]
      exact inv_loadFiles lib env m path _ hd hlist ha (Or.inr ⟨rfl, hdst hs⟩)
    · rw [hs] at hs2
      cases hs2
    · rw [hs] at hs2
      cases hs2
    · exact inv_runCommand lib env { m with destinationPath := m.currentPath, state := .execute }
        o hlist ha (Or.inr rfl) hrun
  | confirmRemove =>
    have hd : m.destinationPath = "" := by
      rcases hdest with hd | ⟨hd, _⟩
      · exact hd
      · rw [hs] at hd
        cases hd
    have ha := hact (by simp [hs])
    simp only [Update, hs] at h
    cases msg with
    | other t =>
      simp only at h
      cases h
      exact ⟨hconf, hdst, hdest, hex, hlist, hact⟩
    | key k =>
      simp only at h
      split at h
      · exact inv_runCommand lib env { m with state := .execute } o hlist ha (Or.inl hd) h
      · split at h <;> cases h <;> exact ⟨hconf, hdst, hdest, hex, hlist, hact⟩
  | execute => exact absurd hs hex
  | showResult =>
    simp only [Update, hs] at h
    cases msg with
    | other t =>
      simp only at h
      cases h
      exact ⟨hconf, hdst, hdest, hex, hlist, hact⟩
    | key k =>
      simp only at h
      split at h <;> cases h <;> exact ⟨hconf, hdst, hdest, hex, hlist, hact⟩

theorem inv_reachable (lib : Lib L) (m : model L) (h : Reachable lib m) : Inv lib m := by
  induction h with
  | init => exact inv_init lib
  | step env msg m o _ hu ih => exact inv_step lib env msg m o ih hu

theorem reachable_runKeys (lib : Lib L) (steps : List (Env × Msg)) :
    ∀ (m m' : model L), Reachable lib m → runKeys lib m steps = .ok m' → Reachable lib m' := by
  induction steps with
  | nil =>
    intro m m' hr h
    simp only [runKeys] at h
    cases h
    exact hr
  | cons s rest ih =>
    intro m m' hr h
    obtain ⟨env, msg⟩ := s
    simp only [runKeys] at h
    split at h
    · cases h
    · rename_i o ho
      exact ih o.m m' (Reachable.step env msg m o hr ho) h

/-! ## The history of `destinationPath` -/

theorem update_showResult (lib : Lib L) (env : Env) (m : model L) (msg : Msg) (o : Outcome L)
    (hs : m.state = .showResult) (h : Update lib env m msg = .ok o) : o.m = m := by
  simp only [Update, hs] at h
  cases msg with
  | other t =>
    simp only at h
    cases h
    rfl
  | key k =>
    simp only at h
    split at h <;> cases h <;> rfl

/-- No step other than the advance key on the destination screen writes
`destinationPath`. -/
theorem update_destination_frame (lib : Lib L) (env : Env) (m : model L) (msg : Msg)
    (o : Outcome L) (h : Update lib env m msg = .ok o)
    (hn : ¬ (m.state = .selectDestination ∧ msg = .key "tab")) :
    o.m.destinationPath = m.destinationPath := by
  cases hs : m.state with
  | selectAction =>
    simp only [Update, hs] at h
    cases msg with
    | other t =>
      simp only at h
      cases h
      rfl
    | key k =>
      simp only at h
      split at h
      · split at h
        · cases h
          exact (loadFiles_frame env _ _ _).2.2.1
        · cases h
          rfl
      · split at h <;> cases h <;> rfl
  | selectFiles =>
    simp only [Update, hs] at h
    rcases updateBrowse_cases env m msg o h with
      ⟨c, hc, _⟩ | ⟨sel, _, hc, _⟩ | ⟨path, hc⟩ | ⟨_, _, hc⟩ | ⟨_, _, hc, _⟩ | ⟨hd2, _⟩
    · rw [hc]
    · rw [hc]
    · rw [hc]
      exact (loadFiles_frame env _ _ _).2.2.1
    · rw [hc]
      exact (loadFiles_frame env _ _ _).2.2.1
    · rw [hc]
    · rw [hs] at hd2
      cases hd2
  | selectDestination =>
    simp only [Update, hs] at h
    rcases updateBrowse_cases env m msg o h with
      ⟨c, hc, _⟩ | ⟨sel, _, hc, _⟩ | ⟨path, hc⟩ | ⟨_, _, hc⟩ | ⟨_, _, hc, _⟩ | ⟨_, hmsg, _⟩
    · rw [hc]
    · rw [hc]
    · rw [hc]
      exact (loadFiles_frame env _ _ _).2.2.1
    · rw [hc]
      exact (loadFiles_frame env _ _ _).2.2.1
    · rw [hc]
    · exact absurd ⟨hs, hmsg⟩ hn
  | confirmRemove =>
    simp only [Update, hs] at h
    cases msg with
    | other t =>
      simp only at h
      cases h
      rfl
    | key k =>
      simp only at h
      split at h
      · exact (runCommand_frame env { m with state := .execute } o h).2.2.2.1
      · split at h <;> cases h <;> rfl
  | execute =>
    simp only [Update, hs] at h
    cases h
    rfl
  | showResult => rw [update_showResult lib env m msg o hs h]

theorem history_reachable (lib : Lib L) (m : model L) (b : Bool) (h : History lib m b) :
    Reachable lib m := by
  induction h with
  | init => exact Reachable.init
  | step env msg m o b _ hu ih => exact Reachable.step env msg m o ih hu

theorem reachable_history (lib : Lib L) (m : model L) (h : Reachable lib m) :
    ∃ b, History lib m b := by
  induction h with
  | init => exact ⟨false, History.init⟩
  | step env msg m o _ hu ih =>
    obtain ⟨b, hb⟩ := ih
    exact ⟨_, History.step env msg m o b hb hu⟩

theorem history_inv (lib : Lib L) (m : model L) (b : Bool) (h : History lib m b) :
    (b = false → m.destinationPath = "") ∧
    (b = true → m.state = .showResult ∧ m.destinationPath = m.currentPath) := by
  induction h with
  | init => exact ⟨fun _ => rfl, fun hb => by cases hb⟩
  | step env msg m o b _ hu ih =>
    by_cases hadv : m.state = .selectDestination ∧ msg = .key "tab"
    · obtain ⟨hs, hmsg⟩ := hadv
      subst hmsg
      rw [update_tab_destination lib env m hs] at hu
      obtain ⟨hst, _, _, hd, hcur, _⟩ := runCommand_frame env _ o hu
      refine ⟨?_, fun _ => ⟨hst, by rw [hd, hcur]⟩⟩
      intro hb
      simp [hs] at hb
    · have hflag : (b || decide (m.state = .selectDestination ∧ msg = .key "tab")) = b := by
        simp [hadv]
      rw [hflag]
      refine ⟨?_, ?_⟩
      · intro hb
        rw [update_destination_frame lib env m msg o hu hadv]
        exact ih.1 hb
      · intro hb
        obtain ⟨hs, hd⟩ := ih.2 hb
        rw [update_showResult lib env m msg o hs hu]
        exact ⟨hs, hd⟩

/-! ## Invariants of the reachable models -/

/-- C9: in every model reachable from `initialModel`, the confirmation screen is
only shown when the action is `Remove`. -/
theorem confirm_only_for_remove (lib : Lib L) (m : model L) (h : Reachable lib m)
    (hs : m.state = .confirmRemove) : m.action = "Remove" :=
  (inv_reachable lib m h).1 hs

/-- Witness for C9: from the initial model, moving to the third item of the action
list, confirming it and pressing `tab` on the source screen reaches the
confirmation screen, with action `Remove`. -/
theorem confirm_only_for_remove_witness :
    ∃ m, Reachable demoLib m ∧ m.state = .confirmRemove ∧ m.action = "Remove" := by
  have hrun : runKeys demoLib (initialModel demoLib)
      [(demoEnv, .key "down"), (demoEnv, .key "down"), (demoEnv, .key "enter"),
       (demoEnv, .key "tab")]
      = .ok { demoModel "Remove" GoMap.empty with
              state := .confirmRemove, cursor := 0, actionList := (actionItems, 2) } := rfl
  have hreach := reachable_runKeys demoLib _ _ _ Reachable.init hrun
  exact ⟨_, hreach, rfl, confirm_only_for_remove demoLib _ hreach rfl⟩

/-- C10: for every model reachable from `initialModel`, with any history leading to
it: `destinationPath` is empty as long as the advance key has not been given on
the destination screen, in particular on the action, source, destination and
confirmation screens; once it has been given, the model is on the result screen
with `destinationPath` equal to `currentPath`. On the destination screen the
advance key runs the command on the model whose `destinationPath` is that
screen's `currentPath`: the step returns a model on the result screen with that
destination, and an executor call, if one is made, has it as last argument. -/
theorem destination_set_on_advance (lib : Lib L) (m : model L) (h : Reachable lib m) :
    (∃ b, History lib m b) ∧
    ∀ b, History lib m b →
      (b = false → m.destinationPath = "") ∧
      (b = true → m.state = .showResult ∧ m.destinationPath = m.currentPath) ∧
      (m.state = .selectAction ∨ m.state = .selectFiles ∨ m.state = .selectDestination ∨
        m.state = .confirmRemove → b = false ∧ m.destinationPath = "") ∧
      (m.state = .selectDestination → ∀ env, ∃ o,
        Update lib env m (.key "tab") = .ok o ∧
        runCommand env { m with destinationPath := m.currentPath, state := .execute } = .ok o ∧
        History lib o.m true ∧
        o.m.destinationPath = m.currentPath ∧ o.m.state = .showResult ∧
        (∀ p0, m.selected.get p0 = true →
          ∃ name args, o.effects = [.exec name (args ++ [m.currentPath])])) := by
  refine ⟨reachable_history lib m h, ?_⟩
  intro b hb
  obtain ⟨hfalse, htrue⟩ := history_inv lib m b hb
  obtain ⟨_, hdst, _, _, _, hact⟩ := inv_reachable lib m h
  have hscreens : m.state = .selectAction ∨ m.state = .selectFiles ∨
      m.state = .selectDestination ∨ m.state = .confirmRemove → b = false := by
    intro hs
    cases b with
    | false => rfl
    | true =>
      rw [(htrue rfl).1] at hs
      simp at hs
  refine ⟨hfalse, htrue, fun hs => ⟨hscreens hs, hfalse (hscreens hs)⟩, ?_⟩
  intro hs env
  have ha := hact (by simp [hs])
  have hnr := hdst hs
  obtain ⟨o, ho⟩ := runCommand_total env
    { m with destinationPath := m.currentPath, state := .execute } ha
  obtain ⟨hst, _, _, hd, _⟩ := runCommand_frame env _ o ho
  have hu : Update lib env m (.key "tab") = .ok o := (update_tab_destination lib env m hs).trans ho
  have hh := History.step env (.key "tab") m o b hb hu
  have hflag : (b || decide (m.state = .selectDestination ∧ Msg.key "tab" = Msg.key "tab")) = true := by
    simp [hs]
  rw [hflag] at hh
  refine ⟨o, hu, ho, hh, hd, hst, ?_⟩
  intro p0 hp0
  rcases ha with ha | ha | ha
  · have hc := runCommand_some env
      { m with destinationPath := m.currentPath, state := .execute } p0 "cp"
      (["-r"] ++ selectedPaths m.selected ++ [m.currentPath]) hp0 (by simp [command, ha])
    rw [ho] at hc
    cases hc
    exact ⟨"cp", ["-r"] ++ selectedPaths m.selected, rfl⟩
  · have hc := runCommand_some env
      { m with destinationPath := m.currentPath, state := .execute } p0 "mv"
      (selectedPaths m.selected ++ [m.currentPath]) hp0 (by simp [command, ha])
    rw [ho] at hc
    cases hc
    exact ⟨"mv", selectedPaths m.selected, rfl⟩
  · exact absurd ha hnr

/-- Witness for C10: choosing `Copy`, selecting `B.txt` and pressing `tab` reaches the
destination screen in `/home` with an empty `destinationPath`; the next `tab` sets
it to `/home` and calls `cp -r /home/B.txt /home`. -/
theorem destination_set_on_advance_witness :
    Reachable demoLib demoDestination ∧ History demoLib demoDestination false ∧
    demoDestination.state = .selectDestination ∧ demoDestination.destinationPath = "" ∧
    ∃ o, Update demoLib demoEnv demoDestination (.key "tab") = .ok o ∧
      History demoLib o.m true ∧ o.m.destinationPath = "/home" ∧ o.m.state = .showResult ∧
      o.effects = [.exec "cp" ["-r", "/home/B.txt", "/home"]] := by
  have hrun : runKeys demoLib (initialModel demoLib)
      [(demoEnv, .key "enter"), (demoEnv, .key " "), (demoEnv, .key "tab")]
      = .ok demoDestination := rfl
  have hreach := reachable_runKeys demoLib _ _ _ Reachable.init hrun
  obtain ⟨⟨b, hb⟩, hall⟩ := destination_set_on_advance demoLib demoDestination hreach
  obtain ⟨_, _, h3, h4⟩ := hall b hb
  obtain ⟨hbf, hempty⟩ := h3 (Or.inr (Or.inr (Or.inl rfl)))
  subst hbf
  obtain ⟨o, ho, _, hh, hd, hst, _⟩ := h4 rfl demoEnv
  refine ⟨hreach, hb, rfl, hempty, o, ho, hh, hd, hst, ?_⟩
  have hu : Update demoLib demoEnv demoDestination (.key "tab")
      = .ok ⟨{ demoDestination with destinationPath := "/home", state := .showResult },
             .quitAfter 2, [.exec "cp" ["-r", "/home/B.txt", "/home"]]⟩ := rfl
  rw [hu] at ho
  cases ho
  rfl

/-! ## The cursor stays inside the listing -/

theorem validCursor_of_eq (m m' : model L) (hf : m'.files = m.files) (hc : m'.cursor = m.cursor)
    (h : validCursor m) : validCursor m' := by
  unfold validCursor at h ⊢
  rw [hf, hc]
  exact h

theorem validCursor_zero (m : model L) (hc : m.cursor = 0) : validCursor m := by
  unfold validCursor
  cases hfiles : m.files with
  | nil => exact Or.inr ⟨rfl, hc⟩
  | cons f rest =>
    refine Or.inl ⟨by omega, ?_⟩
    rw [hc]
    simp

theorem validCursor_loadFiles (env : Env) (m : model L) (path : String) (next : state)
    (h : validCursor m) : validCursor (loadFiles env m path next).m := by
  unfold loadFiles
  cases env.readDir path with
  | error e => exact validCursor_of_eq m _ rfl rfl h
  | ok files => exact validCursor_zero _ rfl

theorem validCursor_browse (env : Env) (m : model L) (msg : Msg) (o : Outcome L)
    (h : validCursor m) (hu : updateBrowse env m msg = .ok o) : validCursor o.m := by
  rcases updateBrowse_cases env m msg o hu with
    ⟨c, hc, _, hcur⟩ | ⟨sel, _, hc, _⟩ | ⟨path, hc⟩ | ⟨_, _, hc⟩ | ⟨_, _, hc, _⟩ | ⟨_, _, hrun⟩
  · rw [hc]
    unfold validCursor at h ⊢
    simp only
    rcases hcur with hcur | ⟨hpos, hcur⟩ | ⟨hlt, hcur⟩
    · rw [hcur]
      exact h
    · rw [hcur]
      rcases h with ⟨_, h1⟩ | ⟨_, h0⟩
      · exact Or.inl ⟨by omega, by omega⟩
      · omega
    · rw [hcur]
      rcases h with ⟨h0, _⟩ | ⟨_, h0⟩
      · exact Or.inl ⟨by omega, by omega⟩
      · refine Or.inl ⟨by omega, by omega⟩
  · rw [hc]
    exact validCursor_of_eq m _ rfl rfl h
  · rw [hc]
    exact validCursor_loadFiles env m path _ h
  · rw [hc]
    exact validCursor_loadFiles env m "." _ h
  · rw [hc]
    exact validCursor_of_eq m _ rfl rfl h
  · obtain ⟨_, _, _, _, _, hf, hcu, _⟩ := runCommand_frame env _ o hrun
    exact validCursor_of_eq m _ hf hcu h

theorem validCursor_step (lib : Lib L) (env : Env) (msg : Msg) (m : model L) (o : Outcome L)
    (h : validCursor m) (hu : Update lib env m msg = .ok o) : validCursor o.m := by
  cases hs : m.state with
  | selectAction =>
    simp only [Update, hs] at hu
    cases msg with
    | other t =>
      simp only at hu
      cases hu
      exact validCursor_of_eq m _ rfl rfl h
    | key k =>
      simp only at hu
      split at hu
      · split at hu
        · cases hu
          exact validCursor_loadFiles env _ _ _ (validCursor_of_eq m _ rfl rfl h)
        · cases hu
          exact validCursor_of_eq m _ rfl rfl h
      · split at hu <;> cases hu <;> exact validCursor_of_eq m _ rfl rfl h
  | selectFiles =>
    simp only [Update, hs] at hu
    exact validCursor_browse env m msg o h hu
  | selectDestination =>
    simp only [Update, hs] at hu
    exact validCursor_browse env m msg o h hu
  | confirmRemove =>
    simp only [Update, hs] at hu
    cases msg with
    | other t =>
      simp only at hu
      cases hu
      exact h
    | key k =>
      simp only at hu
      split at hu
      · obtain ⟨_, _, _, _, _, hf, hcu, _⟩ := runCommand_frame env { m with state := .execute } o hu
        exact validCursor_of_eq m _ hf hcu h
      · split at hu <;> cases hu <;> exact h
  | execute =>
    simp only [Update, hs] at hu
    cases hu
    exact h
  | showResult =>
    rw [update_showResult lib env m msg o hs hu]
    exact h

theorem validCursor_reachable (lib : Lib L) (m : model L) (h : Reachable lib m) :
    validCursor m := by
  induction h with
  | init => exact Or.inr ⟨rfl, rfl⟩
  | step env msg m o _ hu ih => exact validCursor_step lib env msg m o ih hu

/-- The cursor keys on the two browsing screens. -/
theorem update_down (lib : Lib L) (env : Env) (m : model L) (k : String)
    (hs : m.state = .selectFiles ∨ m.state = .selectDestination) (hk : k = "down" ∨ k = "j") :
    Update lib env m (.key k) =
      .ok ⟨if m.cursor < (m.files.length : Int) - 1 then { m with cursor := m.cursor + 1 } else m,
           .nil, []⟩ := by
  rcases hs with hs | hs <;> rcases hk with hk | hk <;> subst hk <;>
    simp [Update, updateBrowse, hs]

theorem update_up (lib : Lib L) (env : Env) (m : model L) (k : String)
    (hs : m.state = .selectFiles ∨ m.state = .selectDestination) (hk : k = "up" ∨ k = "k") :
    Update lib env m (.key k) =
      .ok ⟨if m.cursor > 0 then { m with cursor := m.cursor - 1 } else m, .nil, []⟩ := by
  rcases hs with hs | hs <;> rcases hk with hk | hk <;> subst hk <;>
    simp [Update, updateBrowse, hs]

/-- C11: in every model reachable from `initialModel` the cursor is an index into
`files`, or `files` is empty and the cursor is 0. On the two browsing screens
cursor-down sets it to `min(cursor+1, len(files)-1)` and cursor-up to
`max(cursor-1, 0)`, nothing else changes, and on an empty listing both return
the model unchanged. -/
theorem cursor_valid (lib : Lib L) (m : model L) (h : Reachable lib m) :
    ((0 ≤ m.cursor ∧ m.cursor < m.files.length) ∨ (m.files = [] ∧ m.cursor = 0)) ∧
    (m.state = .selectFiles ∨ m.state = .selectDestination → ∀ env k,
      (k = "down" ∨ k = "j" →
        (m.files ≠ [] → Update lib env m (.key k) =
          .ok ⟨{ m with cursor := min (m.cursor + 1) ((m.files.length : Int) - 1) }, .nil, []⟩) ∧
        (m.files = [] → Update lib env m (.key k) = .ok ⟨m, .nil, []⟩)) ∧
      (k = "up" ∨ k = "k" →
        (m.files ≠ [] → Update lib env m (.key k) =
          .ok ⟨{ m with cursor := max (m.cursor - 1) 0 }, .nil, []⟩) ∧
        (m.files = [] → Update lib env m (.key k) = .ok ⟨m, .nil, []⟩))) := by
  have hv := validCursor_reachable lib m h
  refine ⟨hv, ?_⟩
  intro hs env k
  refine ⟨?_, ?_⟩
  · intro hk
    rw [update_down lib env m k hs hk]
    refine ⟨?_, ?_⟩
    · intro hne
      rcases hv with ⟨h0, h1⟩ | ⟨he, _⟩
      · by_cases hlt : m.cursor < (m.files.length : Int) - 1
        · rw [if_pos hlt, min_eq_left (by omega)]
        · rw [if_neg hlt]
          have hc : min (m.cursor + 1) ((m.files.length : Int) - 1) = m.cursor := by
            rw [min_eq_right (by omega)]
            omega
          rw [hc]
      · exact absurd he hne
    · intro he
      rw [if_neg (by rw [he]; rcases hv with ⟨h0, h1⟩ | ⟨_, hc⟩ <;> simp <;> omega)]
  · intro hk
    rw [update_up lib env m k hs hk]
    refine ⟨?_, ?_⟩
    · intro hne
      rcases hv with ⟨h0, h1⟩ | ⟨he, _⟩
      · by_cases hgt : m.cursor > 0
        · rw [if_pos hgt, max_eq_left (by omega)]
        · rw [if_neg hgt]
          have hc : max (m.cursor - 1) 0 = m.cursor := by
            rw [max_eq_right (by omega)]
            omega
          rw [hc]
      · exact absurd he hne
    · intro he
      rcases hv with ⟨h0, h1⟩ | ⟨_, hc⟩
      · rw [he] at h1
        simp at h1
        omega
      · rw [if_neg (by omega)]

/-- Witness for C11: after choosing `Copy` the source screen lists the four entries
of `/home` with the cursor at 0; cursor-down moves it to 1 and cursor-up leaves
it at 0. -/
theorem cursor_valid_witness :
    Reachable demoLib { demoModel "Copy" GoMap.empty with cursor := 0 } ∧
    Update demoLib demoEnv { demoModel "Copy" GoMap.empty with cursor := 0 } (.key "down")
      = .ok ⟨{ demoModel "Copy" GoMap.empty with cursor := 1 }, .nil, []⟩ ∧
    Update demoLib demoEnv { demoModel "Copy" GoMap.empty with cursor := 0 } (.key "up")
      = .ok ⟨{ demoModel "Copy" GoMap.empty with cursor := 0 }, .nil, []⟩ := by
  have hrun : runKeys demoLib (initialModel demoLib) [(demoEnv, .key "enter")]
      = .ok { demoModel "Copy" GoMap.empty with cursor := 0 } := rfl
  have hreach := reachable_runKeys demoLib _ _ _ Reachable.init hrun
  have h := (cursor_valid demoLib _ hreach).2 (Or.inl rfl) demoEnv
  exact ⟨hreach, ((h "down").1 (Or.inl rfl)).1 (by decide),
    ((h "up").2 (Or.inl rfl)).1 (by decide)⟩

/-! ## Going back at the root -/

/-- C12: on a browsing screen whose `currentPath` is its own parent
(`filepath.Dir(currentPath) = currentPath`), the back key makes no listing and
returns the model unchanged with no command, however often it is given. -/
theorem ascend_root_idempotent (lib : Lib L) (env : Env) (m : model L) (k : String)
    (hs : m.state = .selectFiles ∨ m.state = .selectDestination)
    (hk : k = "left" ∨ k = "backspace") (hroot : env.dir m.currentPath = m.currentPath) :
    Update lib env m (.key k) = .ok ⟨m, .nil, []⟩ ∧
    ∀ n, runKeys lib m (List.replicate n (env, .key k)) = .ok m := by
  have h1 : Update lib env m (.key k) = .ok ⟨m, .nil, []⟩ := by
    rcases hs with hs | hs <;> rcases hk with hk | hk <;> subst hk <;>
      simp [Update, updateBrowse, hs, hroot]
  refine ⟨h1, ?_⟩
  intro n
  induction n with
  | zero => rfl
  | succ n ih =>
    rw [List.replicate_succ]
    simp only [runKeys, h1]
    exact ih

/-- Witness for C12: the back key at `/` in the demo world, once and three times. -/
theorem ascend_root_idempotent_witness :
    demoEnv.dir "/" = "/" ∧
    Update demoLib demoEnv { demoModel "Copy" GoMap.empty with currentPath := "/" } (.key "left")
      = .ok ⟨{ demoModel "Copy" GoMap.empty with currentPath := "/" }, .nil, []⟩ ∧
    runKeys demoLib { demoModel "Copy" GoMap.empty with currentPath := "/" }
        (List.replicate 3 (demoEnv, .key "left"))
      = .ok { demoModel "Copy" GoMap.empty with currentPath := "/" } :=
  ⟨rfl,
    (ascend_root_idempotent demoLib demoEnv
      { demoModel "Copy" GoMap.empty with currentPath := "/" } "left" (Or.inl rfl) (Or.inl rfl)
      rfl).1,
    (ascend_root_idempotent demoLib demoEnv
      { demoModel "Copy" GoMap.empty with currentPath := "/" } "left" (Or.inl rfl) (Or.inl rfl)
      rfl).2 3⟩

/-! ## When a step returns no model -/

theorem runCommand_error (env : Env) (m : model L) (fault : Fault)
    (h : runCommand env m = .error fault) :
    m.action ≠ "Copy" ∧ m.action ≠ "Move" ∧ m.action ≠ "Remove" := by
  refine ⟨?_, ?_, ?_⟩ <;> intro ha
  · obtain ⟨o, ho⟩ := runCommand_total env m (Or.inl ha)
    rw [ho] at h
    cases h
  · obtain ⟨o, ho⟩ := runCommand_total env m (Or.inr (Or.inl ha))
    rw [ho] at h
    cases h
  · obtain ⟨o, ho⟩ := runCommand_total env m (Or.inr (Or.inr ha))
    rw [ho] at h
    cases h

/-- A step on a browsing screen panics only at the indexing `files[cursor]` of the
open and toggle keys, or inside `runCommand`. -/
theorem updateBrowse_error (env : Env) (m : model L) (msg : Msg) (fault : Fault)
    (h : updateBrowse env m msg = .error fault) :
    ((msg = .key "right" ∨ msg = .key "enter") ∧ index m.files m.cursor = .error fault) ∨
    (msg = .key " " ∧ m.state = .selectFiles ∧ index m.files m.cursor = .error fault) ∨
    (msg = .key "tab" ∧ m.state = .selectDestination ∧
      runCommand env { m with destinationPath := m.currentPath, state := .execute }
        = .error fault) := by
  cases msg with
  | other t =>
    simp only [updateBrowse] at h
    cases h
  | key k =>
    simp only [updateBrowse] at h
    by_cases h1 : k = "up" ∨ k = "k"
    · rw [if_pos h1] at h
      cases h
    rw [if_neg h1] at h
    by_cases h2 : k = "down" ∨ k = "j"
    · rw [if_pos h2] at h
      cases h
    rw [if_neg h2] at h
    by_cases h3 : k = "right" ∨ k = "enter"
    · rw [if_pos h3] at h
      split at h
      · rename_i fault' hi
        cases h
        refine Or.inl ⟨?_, hi⟩
        rcases h3 with h3 | h3 <;> simp [h3]
      · split at h <;> cases h
    rw [if_neg h3] at h
    by_cases h4 : k = "left" ∨ k = "backspace"
    · rw [if_pos h4] at h
      split at h <;> cases h
    rw [if_neg h4] at h
    by_cases h5 : k = " "
    · rw [if_pos h5] at h
      split at h
      · rename_i hs
        split at h
        · rename_i fault' hi
          cases h
          exact Or.inr (Or.inl ⟨by rw [h5], hs, hi⟩)
        · cases h
      · cases h
    rw [if_neg h5] at h
    by_cases h6 : k = "tab"
    · rw [if_pos h6] at h
      split at h
      · split at h <;> cases h
      · split at h
        · rename_i hs
          exact Or.inr (Or.inr ⟨by rw [h6], hs, h⟩)
        · cases h
    rw [if_neg h6] at h
    split at h <;> cases h

/-! ## The selection outside the source screen -/

/-- Outside the source screen no step writes the selection. -/
theorem selected_frame (lib : Lib L) (env : Env) (m : model L) (msg : Msg) (o : Outcome L)
    (hs : m.state ≠ .selectFiles) (hu : Update lib env m msg = .ok o) :
    o.m.selected = m.selected := by
  cases hst : m.state with
  | selectAction =>
    simp only [Update, hst] at hu
    cases msg with
    | other t =>
      simp only at hu
      cases hu
      rfl
    | key k =>
      simp only at hu
      split at hu
      · split at hu
        · cases hu
          exact (loadFiles_frame env _ _ _).1
        · cases hu
          rfl
      · split at hu <;> cases hu <;> rfl
  | selectFiles => exact absurd hst hs
  | selectDestination =>
    simp only [Update, hst] at hu
    rcases updateBrowse_cases env m msg o hu with
      ⟨c, hc, _⟩ | ⟨sel, hs2, _⟩ | ⟨path, hc⟩ | ⟨hs2, _⟩ | ⟨hs2, _⟩ | ⟨_, _, hrun⟩
    · rw [hc]
    · exact absurd hs2 hs
    · rw [hc]
      exact (loadFiles_frame env _ _ _).1
    · exact absurd hs2 hs
    · exact absurd hs2 hs
    · exact (runCommand_frame env _ o hrun).2.1
  | confirmRemove =>
    simp only [Update, hst] at hu
    cases msg with
    | other t =>
      simp only at hu
      cases hu
      rfl
    | key k =>
      simp only at hu
      split at hu
      · exact (runCommand_frame env { m with state := .execute } o hu).2.1
      · split at hu <;> cases hu <;> rfl
  | execute =>
    simp only [Update, hst] at hu
    cases hu
    rfl
  | showResult => rw [update_showResult lib env m msg o hst hu]


/-- C13: on every screen other than the source screen, for every message, a step
that returns a model returns it with the selection map unchanged; the toggle key
on the destination screen returns the model as it was. A step returns no model
only at `open` with the cursor outside the listing, or when the command is run
with an action that is none of the three; neither happens in a reachable model
with a non-empty listing. -/
theorem selection_only_on_sources (lib : Lib L) (env : Env) (m : model L) (msg : Msg)
    (hs : m.state ≠ .selectFiles) :
    (∀ o, Update lib env m msg = .ok o → o.m.selected = m.selected) ∧
    (m.state = .selectDestination → Update lib env m (.key " ") = .ok ⟨m, .nil, []⟩) ∧
    (∀ fault, Update lib env m msg = .error fault →
      (m.state = .selectDestination ∧ (msg = .key "right" ∨ msg = .key "enter") ∧
        ¬ (0 ≤ m.cursor ∧ m.cursor < m.files.length)) ∨
      (((m.state = .selectDestination ∧ msg = .key "tab") ∨
          (m.state = .confirmRemove ∧ msg = .key "enter")) ∧
        m.action ≠ "Copy" ∧ m.action ≠ "Move" ∧ m.action ≠ "Remove")) ∧
    (Reachable lib m → m.files ≠ [] →
      ∃ o, Update lib env m msg = .ok o ∧ o.m.selected = m.selected) := by
  have hframe : ∀ o, Update lib env m msg = .ok o → o.m.selected = m.selected :=
    fun o hu => selected_frame lib env m msg o hs hu
  have herr : ∀ fault, Update lib env m msg = .error fault →
      (m.state = .selectDestination ∧ (msg = .key "right" ∨ msg = .key "enter") ∧
        ¬ (0 ≤ m.cursor ∧ m.cursor < m.files.length)) ∨
      (((m.state = .selectDestination ∧ msg = .key "tab") ∨
          (m.state = .confirmRemove ∧ msg = .key "enter")) ∧
        m.action ≠ "Copy" ∧ m.action ≠ "Move" ∧ m.action ≠ "Remove") := by
    intro fault hu
    cases hst : m.state with
    | selectAction =>
      simp only [Update, hst] at hu
      cases msg with
      | other t =>
        simp only at hu
        cases hu
      | key k =>
        simp only at hu
        split at hu
        · split at hu <;> cases hu
        · split at hu <;> cases hu
    | selectFiles => exact absurd hst hs
    | selectDestination =>
      simp only [Update, hst] at hu
      rcases updateBrowse_error env m msg fault hu with ⟨hm, hi⟩ | ⟨_, hs2, _⟩ | ⟨hm, _, hrun⟩
      · exact Or.inl ⟨rfl, hm, index_error _ _ _ hi⟩
      · exact absurd hs2 hs
      · exact Or.inr ⟨Or.inl ⟨rfl, hm⟩, runCommand_error env
          { m with destinationPath := m.currentPath, state := .execute } fault hrun⟩
    | confirmRemove =>
      simp only [Update, hst] at hu
      cases msg with
      | other t =>
        simp only at hu
        cases hu
      | key k =>
        simp only at hu
        split at hu
        · rename_i hk
          exact Or.inr ⟨Or.inr ⟨rfl, by rw [hk]⟩,
            runCommand_error env { m with state := .execute } fault hu⟩
        · split at hu <;> cases hu
    | execute =>
      simp only [Update, hst] at hu
      cases hu
    | showResult =>
      simp only [Update, hst] at hu
      cases msg with
      | other t =>
        simp only at hu
        cases hu
      | key k =>
        simp only at hu
        split at hu <;> cases hu
  refine ⟨hframe, ?_, herr, ?_⟩
  · intro hd
    simp [Update, updateBrowse, hd]
  · intro hreach hne
    cases hu : Update lib env m msg with
    | ok o => exact ⟨o, rfl, hframe o hu⟩
    | error fault =>
      exfalso
      rcases herr fault hu with ⟨_, _, hbad⟩ | ⟨hscreen, hc, hmv, hr⟩
      · rcases validCursor_reachable lib m hreach with hv | ⟨he, _⟩
        · exact hbad hv
        · exact hne he
      · have hact := (inv_reachable lib m hreach).2.2.2.2.2
          (by rcases hscreen with ⟨h1, _⟩ | ⟨h1, _⟩ <;> simp [h1])
        rcases hact with ha | ha | ha
        · exact hc ha
        · exact hmv ha
        · exact hr ha

/-- Witness for C13: the toggle key on the destination screen of the demo world
leaves `/home/B.txt` the only selected path. -/
theorem selection_only_on_sources_witness :
    demoDestination.state ≠ .selectFiles ∧
    Update demoLib demoEnv demoDestination (.key " ") = .ok ⟨demoDestination, .nil, []⟩ ∧
    ∀ o, Update demoLib demoEnv demoDestination (.key " ") = .ok o →
      o.m.selected = demoDestination.selected :=
  ⟨by decide,
    (selection_only_on_sources demoLib demoEnv demoDestination (.key " ") (by decide)).2.1 rfl,
    (selection_only_on_sources demoLib demoEnv demoDestination (.key " ") (by decide)).1⟩

/-! ## Entering the destination screen -/

/-- C14: on the source screen with action `Copy` or `Move`, the advance key `tab`
lists `.`; when that read succeeds the step returns the model on the destination
screen with `currentPath` the absolute form of `.`, cursor 0 and `files` the
sorted listing of `.` (a sorted permutation of the entries read), and it does so
whatever `currentPath`, `files` and `cursor` were before. -/
theorem advance_lists_start (lib : Lib L) (env : Env) (m : model L) (entries : List DirEntry)
    (hs : m.state = .selectFiles) (ha : m.action = "Copy" ∨ m.action = "Move")
    (hr : env.readDir "." = .ok entries) :
    Update lib env m (.key "tab") =
      .ok ⟨{ m with files := sortSlice entries, currentPath := env.abs ".", cursor := 0,
                    state := .selectDestination }, .nil, [.readDir "."]⟩ ∧
    (sortSlice entries).Perm entries ∧
    (sortSlice entries).Sorted (fun a b => bytes a.name ≤ bytes b.name) ∧
    ∀ path files cursor, ∃ o,
      Update lib env { m with currentPath := path, files := files, cursor := cursor } (.key "tab")
        = .ok o ∧
      o.m.state = .selectDestination ∧ o.m.currentPath = env.abs "." ∧ o.m.cursor = 0 ∧
      o.m.files = sortSlice entries ∧ o.effects = [.readDir "."] := by
  have hne : m.action ≠ "Remove" := by
    rcases ha with ha | ha <;> rw [ha] <;> decide
  have key : ∀ m' : model L, m'.state = .selectFiles → m'.action = m.action →
      Update lib env m' (.key "tab") =
        .ok ⟨{ m' with files := sortSlice entries, currentPath := env.abs ".", cursor := 0,
                       state := .selectDestination }, .nil, [.readDir "."]⟩ := by
    intro m' hs' ha'
    have h1 : Update lib env m' (.key "tab") = .ok (loadFiles env m' "." .selectDestination) := by
      simp [Update, updateBrowse, hs', ha', hne]
    rw [h1, loadFiles_ok env m' "." .selectDestination entries hr]
  refine ⟨key m hs rfl, sortSlice_perm entries, sortSlice_sorted entries, ?_⟩
  intro path files cursor
  exact ⟨_, key { m with currentPath := path, files := files, cursor := cursor } hs rfl,
    rfl, rfl, rfl, rfl, rfl⟩

/-- Witness for C14: `tab` in the empty directory `/home/sub` with action `Copy` lands
on the destination screen in `/home` with its four entries and the cursor at 0. -/
theorem advance_lists_start_witness :
    demoEmpty.state = .selectFiles ∧ demoEmpty.action = "Copy" ∧
    Update demoLib demoEnv demoEmpty (.key "tab") =
      .ok ⟨{ demoEmpty with
              files := [⟨"B.txt", false⟩, ⟨"a.txt", false⟩, ⟨"b.txt", false⟩, ⟨"sub", true⟩],
              currentPath := "/home", cursor := 0, state := .selectDestination },
           .nil, [.readDir "."]⟩ :=
  ⟨rfl, rfl, (advance_lists_start demoLib demoEnv demoEmpty _ rfl (Or.inl rfl) rfl).1⟩

/-! ## A failed listing -/

/-- C15: when `os.ReadDir` fails, `loadFiles` returns (it cannot panic) the model on
the result screen with `err` the read error and every other field as it was, in
particular not on the requested screen; the command is the one-shot 2-second
quit timer, and the directory was read once. -/
theorem loadFiles_failure (env : Env) (m : model L) (path : String) (next : state) (e : String)
    (hr : env.readDir path = .error e) :
    loadFiles env m path next =
      ⟨{ m with err := some e, state := .showResult }, .quitAfter 2, [.readDir path]⟩ ∧
    (loadFiles env m path next).m.state = .showResult ∧
    (next ≠ .showResult → (loadFiles env m path next).m.state ≠ next) ∧
    (loadFiles env m path next).m.err = some e ∧
    (loadFiles env m path next).m.files = m.files ∧
    (loadFiles env m path next).m.currentPath = m.currentPath ∧
    (loadFiles env m path next).m.cursor = m.cursor ∧
    (loadFiles env m path next).m.selected = m.selected ∧
    (loadFiles env m path next).m.action = m.action ∧
    (loadFiles env m path next).m.destinationPath = m.destinationPath ∧
    (loadFiles env m path next).cmd = .quitAfter 2 ∧
    (loadFiles env m path next).effects = [.readDir path] := by
  rw [loadFiles_error env m path next e hr]
  exact ⟨rfl, rfl, fun h => Ne.symm h, rfl, rfl, rfl, rfl, rfl, rfl, rfl, rfl, rfl⟩

/-- Witness for C15: listing the missing directory `/nowhere` in the demo world. -/
theorem loadFiles_failure_witness :
    demoEnv.readDir "/nowhere" = .error "no such file or directory" ∧
    loadFiles demoEnv (demoModel "Copy" GoMap.empty) "/nowhere" .selectFiles =
      ⟨{ demoModel "Copy" GoMap.empty with
          err := some "no such file or directory", state := .showResult },
       .quitAfter 2, [.readDir "/nowhere"]⟩ :=
  ⟨rfl, (loadFiles_failure demoEnv (demoModel "Copy" GoMap.empty) "/nowhere" .selectFiles _ rfl).1⟩

/-! ## Opening an entry -/

theorem index_of_get (files : List DirEntry) (i : Int) (f : DirEntry) (h0 : 0 ≤ i)
    (h1 : i < files.length) (hf : files.get? i.toNat = some f) : index files i = .ok f := by
  obtain ⟨f', hget, hidx⟩ := index_ok files i h0 h1
  rw [hget] at hf
  cases hf
  exact hidx

/-- C16: on a browsing screen with the cursor on a directory entry, the open key
lists `join(currentPath, name)`; when that read succeeds the step returns the
model on the same screen with `currentPath` the absolute form of the joined path,
`files` the sorted listing and the cursor at 0. -/
theorem open_directory (lib : Lib L) (env : Env) (m : model L) (k : String) (f : DirEntry)
    (entries : List DirEntry)
    (hs : m.state = .selectFiles ∨ m.state = .selectDestination)
    (hk : k = "right" ∨ k = "enter")
    (h0 : 0 ≤ m.cursor) (h1 : m.cursor < m.files.length)
    (hf : m.files.get? m.cursor.toNat = some f) (hd : f.isDir = true)
    (hr : env.readDir (env.join m.currentPath f.name) = .ok entries) :
    ∃ o, Update lib env m (.key k) = .ok o ∧
      o.m = { m with files := sortSlice entries,
                     currentPath := env.abs (env.join m.currentPath f.name), cursor := 0 } ∧
      o.m.state = m.state ∧
      o.m.currentPath = env.abs (env.join m.currentPath f.name) ∧
      o.m.files = sortSlice entries ∧ o.m.cursor = 0 ∧
      o.cmd = .nil ∧ o.effects = [.readDir (env.join m.currentPath f.name)] := by
  have hi := index_of_get m.files m.cursor f h0 h1 hf
  have hu : Update lib env m (.key k)
      = .ok (loadFiles env m (env.join m.currentPath f.name) m.state) := by
    rcases hs with hs | hs <;> rcases hk with hk | hk <;> subst hk <;>
      simp [Update, updateBrowse, hs, hi, hd]
  rw [loadFiles_ok env m _ m.state entries hr] at hu
  exact ⟨_, hu, rfl, rfl, rfl, rfl, rfl, rfl, rfl⟩

/-- Witness for C16: opening `sub` in `/home` lands in the empty `/home/sub`. -/
theorem open_directory_witness :
    (({ demoModel "Copy" GoMap.empty with cursor := 3 } : model (List actionItem × Nat)).files.get?
      3 = some ⟨"sub", true⟩) ∧
    demoEnv.readDir (demoEnv.join "/home" "sub") = .ok [] ∧
    ∃ o, Update demoLib demoEnv { demoModel "Copy" GoMap.empty with cursor := 3 } (.key "right")
        = .ok o ∧
      o.m.state = .selectFiles ∧ o.m.currentPath = "/home/sub" ∧ o.m.files = [] ∧
      o.m.cursor = 0 := by
  obtain ⟨o, hu, _, hst, hp, hfiles, hc, _⟩ :=
    open_directory demoLib demoEnv { demoModel "Copy" GoMap.empty with cursor := 3 } "right"
      ⟨"sub", true⟩ [] (Or.inl rfl) (Or.inl rfl) (by decide) (by decide) rfl rfl rfl
  exact ⟨rfl, rfl, o, hu, hst, hp, hfiles, hc⟩

/-- C17: on a browsing screen with the cursor on an entry that is not a directory,
the open key returns the model as it was, with no command and no listing. -/
theorem open_non_directory (lib : Lib L) (env : Env) (m : model L) (k : String) (f : DirEntry)
    (hs : m.state = .selectFiles ∨ m.state = .selectDestination)
    (hk : k = "right" ∨ k = "enter")
    (h0 : 0 ≤ m.cursor) (h1 : m.cursor < m.files.length)
    (hf : m.files.get? m.cursor.toNat = some f) (hd : f.isDir = false) :
    Update lib env m (.key k) = .ok ⟨m, .nil, []⟩ := by
  have hi := index_of_get m.files m.cursor f h0 h1 hf
  rcases hs with hs | hs <;> rcases hk with hk | hk <;> subst hk <;>
    simp [Update, updateBrowse, hs, hi, hd]

/-- Witness for C17: `enter` on the file `a.txt` in `/home`. -/
theorem open_non_directory_witness :
    (demoModel "Copy" GoMap.empty).files.get? 1 = some ⟨"a.txt", false⟩ ∧
    Update demoLib demoEnv (demoModel "Copy" GoMap.empty) (.key "enter")
      = .ok ⟨demoModel "Copy" GoMap.empty, .nil, []⟩ :=
  ⟨rfl, open_non_directory demoLib demoEnv (demoModel "Copy" GoMap.empty) "enter"
    ⟨"a.txt", false⟩ (Or.inl rfl) (Or.inr rfl) (by decide) (by decide) rfl rfl⟩

/-! ## The action of a model with a selection -/

/-- No step enters the action screen from another screen. -/
theorem update_stays_off_selectAction (lib : Lib L) (env : Env) (m : model L) (msg : Msg)
    (o : Outcome L) (hu : Update lib env m msg = .ok o) (ho : o.m.state = .selectAction) :
    m.state = .selectAction := by
  cases hst : m.state with
  | selectAction => rfl
  | selectFiles =>
    exfalso
    simp only [Update, hst] at hu
    rcases updateBrowse_cases env m msg o hu with
      ⟨c, hc, _⟩ | ⟨sel, _, hc, _⟩ | ⟨path, hc⟩ | ⟨_, _, hc⟩ | ⟨_, _, hc, _⟩ | ⟨_, _, hrun⟩
    · rw [hc] at ho
      simp [hst] at ho
    · rw [hc] at ho
      simp [hst] at ho
    · rw [hc] at ho
      rcases (loadFiles_frame env m path m.state).2.2.2.2.2.2 with h | h <;> rw [h] at ho
      · simp [hst] at ho
      · cases ho
    · rw [hc] at ho
      rcases (loadFiles_frame env m "." .selectDestination).2.2.2.2.2.2 with h | h <;>
        rw [h] at ho <;> cases ho
    · rw [hc] at ho
      cases ho
    · rw [(runCommand_frame env _ o hrun).1] at ho
      cases ho
  | selectDestination =>
    exfalso
    simp only [Update, hst] at hu
    rcases updateBrowse_cases env m msg o hu with
      ⟨c, hc, _⟩ | ⟨sel, _, hc, _⟩ | ⟨path, hc⟩ | ⟨_, _, hc⟩ | ⟨_, _, hc, _⟩ | ⟨_, _, hrun⟩
    · rw [hc] at ho
      simp [hst] at ho
    · rw [hc] at ho
      simp [hst] at ho
    · rw [hc] at ho
      rcases (loadFiles_frame env m path m.state).2.2.2.2.2.2 with h | h <;> rw [h] at ho
      · simp [hst] at ho
      · cases ho
    · rw [hc] at ho
      rcases (loadFiles_frame env m "." .selectDestination).2.2.2.2.2.2 with h | h <;>
        rw [h] at ho <;> cases ho
    · rw [hc] at ho
      cases ho
    · rw [(runCommand_frame env _ o hrun).1] at ho
      cases ho
  | confirmRemove =>
    exfalso
    simp only [Update, hst] at hu
    cases msg with
    | other t =>
      simp only at hu
      cases hu
      simp [hst] at ho
    | key k =>
      simp only at hu
      split at hu
      · rw [(runCommand_frame env { m with state := .execute } o hu).1] at ho
        cases ho
      · split at hu <;> cases hu <;> simp [hst] at ho
  | execute =>
    exfalso
    simp only [Update, hst] at hu
    cases hu
    simp [hst] at ho
  | showResult =>
    exfalso
    rw [update_showResult lib env m msg o hst hu, hst] at ho
    cases ho

/-- On the action screen of a reachable model nothing is selected yet. -/
theorem reachable_selectAction (lib : Lib L) (m : model L) (h : Reachable lib m) :
    m.state = .selectAction → ∀ p, m.selected.get p = false := by
  induction h with
  | init =>
    intro _ p
    rfl
  | step env msg m o _ hu ih =>
    intro ho p
    have hst := update_stays_off_selectAction lib env m msg o hu ho
    rw [selected_frame lib env m msg o (by simp [hst]) hu]
    exact ih hst p

/-- A reachable model with a selected path has one of the three actions. -/
theorem reachable_action (lib : Lib L) (m : model L) (p0 : String) (h : Reachable lib m)
    (hsel : m.selected.get p0 = true) :
    m.action = "Copy" ∨ m.action = "Move" ∨ m.action = "Remove" := by
  apply (inv_reachable lib m h).2.2.2.2.2
  intro hst
  have := reachable_selectAction lib m h hst p0
  rw [hsel] at this
  cases this

/-! ## The result screen -/

/-- Counterexample to C18: on the result screen the key `enter` returns no command. -/
theorem result_any_key_quits_counterexample :
    demoResult.state = .showResult ∧
    Update demoLib demoEnv demoResult (.key "enter") = .ok ⟨demoResult, .nil, []⟩ ∧
    ¬ (∃ o, Update demoLib demoEnv demoResult (.key "enter") = .ok o ∧ o.cmd = .quit) := by
  have hu : Update demoLib demoEnv demoResult (.key "enter") = .ok ⟨demoResult, .nil, []⟩ := rfl
  refine ⟨rfl, hu, ?_⟩
  rintro ⟨o, ho, hc⟩
  rw [hu] at ho
  cases ho
  cases hc

/-- C18, amended: on the result screen the keys `q` and `ctrl+c` return the quit
command, every other key and every other message returns no command, and the
model is returned unchanged, with no external call, in all cases. -/
theorem result_keys (lib : Lib L) (env : Env) (m : model L) (hs : m.state = .showResult) :
    (∀ k, Update lib env m (.key k) =
      .ok ⟨m, if k = "q" ∨ k = "ctrl+c" then .quit else .nil, []⟩) ∧
    (∀ t, Update lib env m (.other t) = .ok ⟨m, .nil, []⟩) := by
  refine ⟨?_, ?_⟩
  · intro k
    by_cases hk : k = "q" ∨ k = "ctrl+c"
    · simp [Update, hs, hk]
    · simp [Update, hs, hk]
  · intro t
    simp [Update, hs]

/-- Witness for C18, amended: `q` quits on the result screen of the demo world, `x`
does not. -/
theorem result_keys_witness :
    demoResult.state = .showResult ∧
    Update demoLib demoEnv demoResult (.key "q") = .ok ⟨demoResult, .quit, []⟩ ∧
    Update demoLib demoEnv demoResult (.key "x") = .ok ⟨demoResult, .nil, []⟩ :=
  ⟨rfl, (result_keys demoLib demoEnv demoResult rfl).1 "q",
    (result_keys demoLib demoEnv demoResult rfl).1 "x"⟩

theorem error_status_ne (e : String) : "Error: " ++ e ≠ "Success!" := by
  intro h
  have hd := congrArg String.data h
  rw [String.data_append] at hd
  have h0 := congrArg List.head? hd
  simp at h0

/-- C19: for every model with at least one selected path that is reachable from
`initialModel`, or whose action is `Copy`, `Move` or `Remove`, and whatever the
executor answers, `runCommand` returns: one executor call, the model on the result
screen with `result` the combined output as given and `err` the executor's error,
and the 2-second quit timer. `View` on that model is the result text whose status
line is `Success!` exactly when `err` is nil, and `Error: ` followed by the error
text otherwise. -/
theorem runCommand_reports_outcome (lib : Lib L) (d : Display L) (env : Env) (m : model L)
    (p0 : String) (hsel : m.selected.get p0 = true)
    (hm : Reachable lib m ∨ m.action = "Copy" ∨ m.action = "Move" ∨ m.action = "Remove") :
    ∃ o name args status, runCommand env m = .ok o ∧ o.effects = [.exec name args] ∧
      o.m.state = .showResult ∧
      o.m.result = (env.combinedOutput name args).1 ∧
      o.m.err = (env.combinedOutput name args).2 ∧
      o.cmd = .quitAfter 2 ∧
      View d env o.m =
        .ok ("\n== Result ==\n" ++ status ++ "\n\n" ++ o.m.result ++ "\n\nExiting in 2 seconds...") ∧
      (status = "Success!" ↔ o.m.err = none) ∧
      (∀ e, o.m.err = some e → status = "Error: " ++ e) := by
  have ha : m.action = "Copy" ∨ m.action = "Move" ∨ m.action = "Remove" := by
    rcases hm with hm | hm
    · exact reachable_action lib m p0 hm hsel
    · exact hm
  have hcmd : ∃ name args,
      command m.action (selectedPaths m.selected) m.destinationPath = some (name, args) := by
    rcases ha with ha | ha | ha <;> simp [command, ha]
  obtain ⟨name, args, hc⟩ := hcmd
  have hrun := runCommand_some env m p0 name args hsel hc
  cases herr : (env.combinedOutput name args).2 with
  | none =>
    refine ⟨_, name, args, "Success!", hrun, rfl, rfl, rfl, rfl, rfl, ?_, ?_, ?_⟩
    · simp only [View, herr]
    · simp only [herr]
    · intro e he
      simp only [herr] at he
      cases he
  | some e =>
    refine ⟨_, name, args, "Error: " ++ e, hrun, rfl, rfl, rfl, rfl, rfl, ?_, ?_, ?_⟩
    · simp only [View, herr]
    · simp only [herr]
      constructor
      · intro h
        exact absurd h (error_status_ne e)
      · intro h
        cases h
    · intro e' he
      simp only [herr] at he
      cases he
      rfl

/-- Witness for C19: copying `/home/a.txt` to `/tmp/dest` with an executor that fails
ends on the result screen with the output and the error kept, shown as an error. -/
theorem runCommand_reports_outcome_witness :
    (GoMap.empty.store "/home/a.txt" true).get "/home/a.txt" = true ∧
    (demoModel "Copy" (GoMap.empty.store "/home/a.txt" true)).action = "Copy" ∧
    ∃ o, runCommand demoFailEnv
        { demoModel "Copy" (GoMap.empty.store "/home/a.txt" true) with
          destinationPath := "/tmp/dest" } = .ok o ∧
      o.effects = [.exec "cp" ["-r", "/home/a.txt", "/tmp/dest"]] ∧
      o.m.state = .showResult ∧ o.m.result = "cp: permission denied\n" ∧
      o.m.err = some "exit status 1" ∧
      View demoDisplay demoFailEnv o.m =
        .ok "\n== Result ==\nError: exit status 1\n\ncp: permission denied\n\n\nExiting in 2 seconds..." := by
  obtain ⟨o, name, args, status, hrun, _, hst, _, _, _, _, _, _⟩ :=
    runCommand_reports_outcome demoLib demoDisplay demoFailEnv
      { demoModel "Copy" (GoMap.empty.store "/home/a.txt" true) with
        destinationPath := "/tmp/dest" }
      "/home/a.txt" (by decide) (Or.inr (Or.inl rfl))
  have hrun2 : runCommand demoFailEnv
      { demoModel "Copy" (GoMap.empty.store "/home/a.txt" true) with
        destinationPath := "/tmp/dest" }
      = .ok ⟨{ demoModel "Copy" (GoMap.empty.store "/home/a.txt" true) with
                destinationPath := "/tmp/dest", result := "cp: permission denied\n",
                err := some "exit status 1", state := .showResult },
             .quitAfter 2, [.exec "cp" ["-r", "/home/a.txt", "/tmp/dest"]]⟩ := rfl
  rw [hrun2] at hrun
  cases hrun
  exact ⟨by decide, rfl, _, hrun2, rfl, hst, rfl, rfl, rfl⟩

/-! ## Indexing an empty listing -/

/-- C20: the code at the failing input. The model on the source screen in the empty
directory `/home/sub` is reachable (choose `Copy`, move the cursor down to `sub`,
open it); there `files` is empty and the cursor is 0, and the open keys and the
toggle key index `files[0]` and panic instead of returning the model. -/
theorem open_toggle_empty_listing_faults :
    Reachable demoLib demoEmpty ∧
    demoEmpty.state = .selectFiles ∧ demoEmpty.files = [] ∧ demoEmpty.cursor = 0 ∧
    Update demoLib demoEnv demoEmpty (.key "enter") = .error (.indexOutOfRange 0 0) ∧
    Update demoLib demoEnv demoEmpty (.key "right") = .error (.indexOutOfRange 0 0) ∧
    Update demoLib demoEnv demoEmpty (.key " ") = .error (.indexOutOfRange 0 0) := by
  have hrun : runKeys demoLib (initialModel demoLib)
      [(demoEnv, .key "enter"), (demoEnv, .key "down"), (demoEnv, .key "down"),
       (demoEnv, .key "down"), (demoEnv, .key "right")]
      = .ok demoEmpty := rfl
  exact ⟨reachable_runKeys demoLib _ _ _ Reachable.init hrun, rfl, rfl, rfl, rfl, rfl, rfl⟩

end Dircandy
